import Mathlib

/-!
Verification development for the html2figma plugin core
(regex-based HTML parser, CSS cascade resolver, style value interpreters,
and the width/height handling of the node emitters).

Modelling conventions, applied uniformly:
* JavaScript strings are modelled as `List Char` (`Str`); `chars` converts a
  Lean string literal.
* JavaScript numbers are modelled as exact rationals (`ℚ`).  `NaN` is
  modelled by `Option.none` in the numeric parsers.  JavaScript float
  rounding and the `Infinity` literal are outside the rational model.
* JavaScript objects used as string maps are modelled as association lists
  with a replace-in-place `upsertP` (JS objects keep unique keys and keep
  first-insertion order on overwrite, which `upsertP` preserves).
* Regex-based scanning loops are translated operationally, including the
  lazy/greedy and backtracking behaviour of the concrete patterns used by
  the source (analysed pattern by pattern at the definition sites).
-/

abbrev Str := List Char

def chars (s : String) : Str := s.data

/-- Whitespace as matched by the JS `\s` class and by `String.prototype.trim`
(ASCII whitespace plus NBSP and BOM; other unicode space code points do not
occur in the inputs considered here). -/
def isJsSpace (c : Char) : Bool :=
  c = ' ' || c = '\t' || c = '\n' || c = '\r' ||
  c = Char.ofNat 11 || c = Char.ofNat 12 || c = Char.ofNat 160 || c = Char.ofNat 65279

/-- The JS `\w` class: ASCII letters, digits and underscore. -/
def isWordChar (c : Char) : Bool := c.isAlpha || c.isDigit || c = '_'

/-- JS `String.prototype.trim`. -/
def jsTrim (cs : Str) : Str :=
  ((cs.dropWhile isJsSpace).reverse.dropWhile isJsSpace).reverse

/-- JS `String.prototype.toLowerCase` (ASCII range, which is all the source
relies on). -/
def jsToLower (cs : Str) : Str := cs.map Char.toLower

/-- Character comparison, optionally case-insensitive (for the `/i` regex
flag). -/
def chEq (ci : Bool) (a b : Char) : Bool :=
  if ci then a.toLower = b.toLower else a = b

/-- Does `cs` begin with `pat` (under the given case sensitivity)? -/
def beginsWith (ci : Bool) : Str → Str → Bool
  | [], _ => true
  | _ :: _, [] => false
  | p :: ps, c :: cs => chEq ci p c && beginsWith ci ps cs

/-- Find the first occurrence of `pat` in `cs`: returns the text before the
occurrence and the text after it.  This is the primitive behind every
`indexOf`-style search and lazy `[\s\S]*?` regex segment in the source. -/
def splitFirstSub (ci : Bool) (pat : Str) : Str → Option (Str × Str)
  | [] => if beginsWith ci pat [] then some ([], []) else none
  | c :: rest =>
    if beginsWith ci pat (c :: rest) then some ([], (c :: rest).drop pat.length)
    else
      match splitFirstSub ci pat rest with
      | some (pre, suf) => some (c :: pre, suf)
      | none => none

/-- JS `String.prototype.includes` (case-sensitive substring test). -/
def containsSub (pat cs : Str) : Bool := (splitFirstSub false pat cs).isSome

/-- JS `String.prototype.split` with a single-character separator. -/
def charSplit (sep : Char) : Str → List Str
  | [] => [[]]
  | c :: rest =>
    if c = sep then [] :: charSplit sep rest
    else
      match charSplit sep rest with
      | h :: t => (c :: h) :: t
      | [] => [[c]]

/-- Decimal value of a digit character. -/
def digitVal (c : Char) : ℕ := c.toNat - 48

/-- Value of a run of decimal digits. -/
def digitsToNat (cs : Str) : ℕ := cs.foldl (fun acc c => 10 * acc + digitVal c) 0

/-- Hex digit test, case-insensitive (the `[a-f\d]` class under `/i`). -/
def isHexDigitCh (c : Char) : Bool :=
  c.isDigit || ('a' ≤ c && c ≤ 'f') || ('A' ≤ c && c ≤ 'F')

/-- Value of a hex digit character. -/
def hexVal (c : Char) : ℕ :=
  if c.isDigit then c.toNat - 48
  else if 'a' ≤ c && c ≤ 'f' then c.toNat - 87
  else c.toNat - 55

/-- Value of a run of hex digits. -/
def hexDigitsToNat (cs : Str) : ℕ := cs.foldl (fun acc c => 16 * acc + hexVal c) 0

/-! ### String-keyed maps (JS object semantics) -/

/-- Insert or overwrite a binding, keeping the position of an existing key
(JS object insertion-order semantics). -/
def upsertP {α : Type} : List (Str × α) → Str → α → List (Str × α)
  | [], k, v => [(k, v)]
  | q :: rest, k, v => if q.1 = k then (k, v) :: rest else q :: upsertP rest k v

/-- Property lookup on an association-list map. -/
def lookupA {α : Type} : List (Str × α) → Str → Option α
  | [], _ => none
  | q :: rest, k => if q.1 = k then some q.2 else lookupA rest k

/-- First-some choice, modelling the JS `a || b` pattern on option-shaped
values. -/
def myOr {α : Type} : Option α → Option α → Option α
  | some v, _ => some v
  | none, b => b

abbrev StyleMap := List (Str × Str)
abbrev CssTable := List (Str × StyleMap)

/-- `Object.assign(target, src)`: overlay every binding of `src` onto
`target`, per property. -/
def assign (target src : StyleMap) : StyleMap :=
  src.foldl (fun acc q => upsertP acc q.1 q.2) target

/-- The keys of a map are pairwise distinct (true of every map the source
builds, since JS objects have unique keys). -/
def keysNodup (m : StyleMap) : Prop := (m.map (fun q => q.1)).Nodup

/-! ### Numeric parsers (`parseFloat` / `parseInt`) -/

/-- JS `parseFloat`: skip leading whitespace, optional sign, longest prefix
of the form `digits [. digits] [e|E [sign] digits]`.  `none` models `NaN`.
The `Infinity` literal is outside the rational model (no claim depends on
it). -/
def jsParseFloat (s : Str) : Option ℚ :=
  let s1 := s.dropWhile isJsSpace
  let sign : ℚ × Str :=
    match s1 with
    | '-' :: r => (-1, r)
    | '+' :: r => (1, r)
    | _ => (1, s1)
  let s2 := sign.2
  let intPart := s2.takeWhile Char.isDigit
  let s3 := s2.drop intPart.length
  let frac : Str × Str :=
    match s3 with
    | '.' :: r => (r.takeWhile Char.isDigit, r.drop (r.takeWhile Char.isDigit).length)
    | _ => ([], s3)
  let fracPart := frac.1
  let s4 := frac.2
  if intPart = [] ∧ fracPart = [] then none
  else
    let mantissa : ℚ := (digitsToNat intPart : ℚ) + (digitsToNat fracPart : ℚ) / ((10 : ℚ) ^ fracPart.length)
    let expPart : ℤ :=
      match s4 with
      | 'e' :: r | 'E' :: r =>
        let signE : ℤ × Str :=
          match r with
          | '-' :: r2 => (-1, r2)
          | '+' :: r2 => (1, r2)
          | _ => (1, r)
        let ds := signE.2.takeWhile Char.isDigit
        if ds = [] then 0 else signE.1 * (digitsToNat ds : ℤ)
      | _ => 0
    some (sign.1 * mantissa * (10 : ℚ) ^ expPart)

/-- JS `parseInt` with no radix argument: skip whitespace, optional sign,
`0x`/`0X` hex prefix detection, else decimal digits; `none` models `NaN`. -/
def jsParseInt (s : Str) : Option ℤ :=
  let s1 := s.dropWhile isJsSpace
  let sign : ℤ := if s1.head? = some '-' then -1 else 1
  let s2 := if s1.head? = some '-' ∨ s1.head? = some '+' then s1.tail else s1
  if s2.head? = some '0' ∧ (s2.tail.head? = some 'x' ∨ s2.tail.head? = some 'X') then
    let hx := (s2.drop 2).takeWhile isHexDigitCh
    if hx = [] then none else some (sign * (hexDigitsToNat hx : ℤ))
  else
    let ds := s2.takeWhile Char.isDigit
    if ds = [] then none else some (sign * (digitsToNat ds : ℤ))

/-! ### Style value interpreters (StyleProcessor) -/

/-- `parseSize` from the style processor: CSS size string to pixel number. -/
def parseSize (size : Str) : ℚ :=
  if size = [] then 0
  else
    match jsParseFloat size with
    | none => 0
    | some value =>
      if containsSub (chars "em") size then value * 16
      else if containsSub (chars "rem") size then value * 16
      else if containsSub (chars "%") size then value
      else if containsSub (chars "vh") size then value * 10
      else if containsSub (chars "vw") size then value * 14
      else if containsSub (chars "pt") size then value * (133 / 100)
      else value

/-- `parseFontSize` from the style processor. -/
def parseFontSize (fontSize : Str) : ℚ :=
  if fontSize = [] then 16
  else
    match jsParseFloat fontSize with
    | none =>
      let l := jsToLower fontSize
      if l = chars "xx-small" then 9
      else if l = chars "x-small" then 10
      else if l = chars "small" then 13
      else if l = chars "medium" then 16
      else if l = chars "large" then 18
      else if l = chars "x-large" then 24
      else if l = chars "xx-large" then 32
      else 16
    | some size =>
      if containsSub (chars "em") fontSize then size * 16
      else if containsSub (chars "rem") fontSize then size * 16
      else if containsSub (chars "%") fontSize then (size / 100) * 16
      else if containsSub (chars "pt") fontSize then size * (133 / 100)
      else size

/-! ### Colors (StyleProcessor.parseColor and helpers) -/

structure RGB where
  r : ℚ
  g : ℚ
  b : ℚ
deriving DecidableEq

structure RGBA where
  r : ℚ
  g : ℚ
  b : ℚ
  a : ℚ
deriving DecidableEq

/-- Drop-shadow effect descriptor; the constant fields of the source object
(`type: 'DROP_SHADOW'`, `visible: true`, `blendMode: 'NORMAL'`) are constant
and therefore not modelled. -/
structure DropShadowEffect where
  color : RGBA
  offsetX : ℚ
  offsetY : ℚ
  radius : ℚ
deriving DecidableEq

/-- Does `h` consist of exactly six hex digits?  This is the body test of the
`hexToRgb` regex `^#?([a-f\d]{2})([a-f\d]{2})([a-f\d]{2})$/i` after the
optional leading `#` was consumed. -/
def isHex6 (h : Str) : Bool := h.length = 6 && h.all isHexDigitCh

/-- Value of a two-hex-digit channel at offset `i` of `h`. -/
def hexPairAt (h : Str) (i : ℕ) : ℚ :=
  (hexVal (h.getD i '0') * 16 + hexVal (h.getD (i + 1) '0') : ℕ)

/-- `hexToRgb`: six-hex-digit colors (optional leading `#`) to `{r,g,b}`
channels in `[0,1]`; anything else (including 3-digit hex) yields black. -/
def hexToRgb (hex : Str) : RGB :=
  let h := if hex.head? = some '#' then hex.tail else hex
  if isHex6 h then
    ⟨hexPairAt h 0 / 255, hexPairAt h 2 / 255, hexPairAt h 4 / 255⟩
  else ⟨0, 0, 0⟩

/-- JS `Math.round` (round half toward positive infinity). -/
def jsRound (x : ℚ) : ℤ := ⌊x + 1 / 2⌋

/-- The `hue2rgb` helper inside `hslToRgb`. -/
def hue2rgb (p q t : ℚ) : ℚ :=
  let t1 := if t < 0 then t + 1 else t
  let t2 := if t1 > 1 then t1 - 1 else t1
  if t2 < 1 / 6 then p + (q - p) * 6 * t2
  else if t2 < 1 / 2 then q
  else if t2 < 2 / 3 then p + (q - p) * (2 / 3 - t2) * 6
  else p

/-- `hslToRgb` (standard HSL to RGB conversion, channels rounded to a /255
grid as the source does with `Math.round(x*255)/255`). -/
def hslToRgb (h s l : ℚ) : RGB :=
  let rgb : ℚ × ℚ × ℚ :=
    if s = 0 then (l, l, l)
    else
      let q := if l < 1 / 2 then l * (1 + s) else l + s - l * s
      let p := 2 * l - q
      (hue2rgb p q (h + 1 / 3), hue2rgb p q h, hue2rgb p q (h - 1 / 3))
  ⟨(jsRound (rgb.1 * 255) : ℚ) / 255,
   (jsRound (rgb.2.1 * 255) : ℚ) / 255,
   (jsRound (rgb.2.2 * 255) : ℚ) / 255⟩

/-- One attempt of the `rgba?(...)` regex at the head of `cs`; returns the
three captured digit runs as numbers.  Mirrors the pattern
`rgba?\(\s*(\d+)\s*,\s*(\d+)\s*,\s*(\d+)(?:\s*,\s*[\d.]+)?\s*\)` including
the greedy optional alpha group (which falls back to the no-alpha
continuation when its own `\)` is missing). -/
def rgbTryAt (cs : Str) : Option (ℕ × ℕ × ℕ) :=
  match cs with
  | 'r' :: 'g' :: 'b' :: r0 =>
    let r1 := match r0 with
      | 'a' :: r => r
      | _ => r0
    match r1 with
    | '(' :: r2 =>
      let t1 := r2.dropWhile isJsSpace
      let d1 := t1.takeWhile Char.isDigit
      if d1 = [] then none
      else
        let t2 := (t1.drop d1.length).dropWhile isJsSpace
        match t2 with
        | ',' :: t3 =>
          let t4 := t3.dropWhile isJsSpace
          let d2 := t4.takeWhile Char.isDigit
          if d2 = [] then none
          else
            let t5 := (t4.drop d2.length).dropWhile isJsSpace
            match t5 with
            | ',' :: t6 =>
              let t7 := t6.dropWhile isJsSpace
              let d3 := t7.takeWhile Char.isDigit
              if d3 = [] then none
              else
                let t8 := (t7.drop d3.length).dropWhile isJsSpace
                let res := (digitsToNat d1, digitsToNat d2, digitsToNat d3)
                let noAlpha : Option (ℕ × ℕ × ℕ) :=
                  match t8 with
                  | ')' :: _ => some res
                  | _ => none
                match t8 with
                | ',' :: t9 =>
                  let t10 := t9.dropWhile isJsSpace
                  let al := t10.takeWhile (fun c => c.isDigit || c = '.')
                  if al = [] then noAlpha
                  else
                    match (t10.drop al.length).dropWhile isJsSpace with
                    | ')' :: _ => some res
                    | _ => noAlpha
                | _ => noAlpha
            | _ => none
        | _ => none
    | _ => none
  | _ => none

/-- Unanchored search with `rgbTryAt` (JS `String.prototype.match`
semantics: first match anywhere in the string). -/
def rgbScan : Str → Option (ℕ × ℕ × ℕ)
  | [] => none
  | c :: rest =>
    match rgbTryAt (c :: rest) with
    | some v => some v
    | none => rgbScan rest

/-- One attempt of the `hsla?(...)` regex at the head of `cs`; pattern
`hsla?\(\s*(\d+)\s*,\s*(\d+)%\s*,\s*(\d+)%(?:\s*,\s*[\d.]+)?\s*\)`. -/
def hslTryAt (cs : Str) : Option (ℕ × ℕ × ℕ) :=
  match cs with
  | 'h' :: 's' :: 'l' :: r0 =>
    let r1 := match r0 with
      | 'a' :: r => r
      | _ => r0
    match r1 with
    | '(' :: r2 =>
      let t1 := r2.dropWhile isJsSpace
      let d1 := t1.takeWhile Char.isDigit
      if d1 = [] then none
      else
        let t2 := (t1.drop d1.length).dropWhile isJsSpace
        match t2 with
        | ',' :: t3 =>
          let t4 := t3.dropWhile isJsSpace
          let d2 := t4.takeWhile Char.isDigit
          if d2 = [] then none
          else
            match t4.drop d2.length with
            | '%' :: t5 =>
              match t5.dropWhile isJsSpace with
              | ',' :: t6 =>
                let t7 := t6.dropWhile isJsSpace
                let d3 := t7.takeWhile Char.isDigit
                if d3 = [] then none
                else
                  match t7.drop d3.length with
                  | '%' :: t8a =>
                    let t8 := t8a
                    let res := (digitsToNat d1, digitsToNat d2, digitsToNat d3)
                    let noAlpha : Option (ℕ × ℕ × ℕ) :=
                      match t8.dropWhile isJsSpace with
                      | ')' :: _ => some res
                      | _ => none
                    match t8.dropWhile isJsSpace with
                    | ',' :: t9 =>
                      let t10 := t9.dropWhile isJsSpace
                      let al := t10.takeWhile (fun c => c.isDigit || c = '.')
                      if al = [] then noAlpha
                      else
                        match (t10.drop al.length).dropWhile isJsSpace with
                        | ')' :: _ => some res
                        | _ => noAlpha
                    | _ => noAlpha
                  | _ => none
              | _ => none
            | _ => none
        | _ => none
    | _ => none
  | _ => none

/-- Unanchored search with `hslTryAt`. -/
def hslScan : Str → Option (ℕ × ℕ × ℕ)
  | [] => none
  | c :: rest =>
    match hslTryAt (c :: rest) with
    | some v => some v
    | none => hslScan rest

/-- The fixed named-color table of `parseColor` (note the non-standard
`transparent` → white entry). -/
def namedColors : List (Str × Str) :=
  [(chars "black", chars "#000000"), (chars "white", chars "#ffffff"),
   (chars "red", chars "#ff0000"), (chars "green", chars "#008000"),
   (chars "blue", chars "#0000ff"), (chars "yellow", chars "#ffff00"),
   (chars "cyan", chars "#00ffff"), (chars "magenta", chars "#ff00ff"),
   (chars "silver", chars "#c0c0c0"), (chars "gray", chars "#808080"),
   (chars "grey", chars "#808080"), (chars "maroon", chars "#800000"),
   (chars "olive", chars "#808000"), (chars "lime", chars "#00ff00"),
   (chars "aqua", chars "#00ffff"), (chars "teal", chars "#008080"),
   (chars "navy", chars "#000080"), (chars "fuchsia", chars "#ff00ff"),
   (chars "purple", chars "#800080"), (chars "orange", chars "#ffa500"),
   (chars "pink", chars "#ffc0cb"), (chars "brown", chars "#a52a2a"),
   (chars "darkgray", chars "#a9a9a9"), (chars "darkgrey", chars "#a9a9a9"),
   (chars "lightgray", chars "#d3d3d3"), (chars "lightgrey", chars "#d3d3d3"),
   (chars "transparent", chars "#ffffff")]

/-- `parseColor`: hex, `rgb()/rgba()`, `hsl()/hsla()` and named colors;
`none` models the JS `null` "not resolvable" sentinel. -/
def parseColor (color : Str) : Option RGB :=
  if color = [] then none
  else
    let c := jsToLower (jsTrim color)
    if c.head? = some '#' then some (hexToRgb c)
    else
      let fromRgb : Option RGB :=
        if beginsWith false (chars "rgb") c then
          match rgbScan c with
          | some (a, b, d) => some ⟨(a : ℚ) / 255, (b : ℚ) / 255, (d : ℚ) / 255⟩
          | none => none
        else none
      match fromRgb with
      | some v => some v
      | none =>
        let fromHsl : Option RGB :=
          if beginsWith false (chars "hsl") c then
            match hslScan c with
            | some (a, b, d) => some (hslToRgb ((a : ℚ) / 360) ((b : ℚ) / 100) ((d : ℚ) / 100))
            | none => none
          else none
        match fromHsl with
        | some v => some v
        | none =>
          match lookupA namedColors c with
          | some hx => some (hexToRgb hx)
          | none => none

/-! ### Box shadow (StyleProcessor.parseBoxShadow) -/

/-- One `(\\d+)px` segment of the box-shadow regex at the head of `cs`:
the greedy digit run followed by the literal `px`; returns the digit run
and the remaining text. -/
def pxSegTry (cs : Str) : Option (Str × Str) :=
  let d := cs.takeWhile Char.isDigit
  if d = [] then none
  else
    match cs.drop d.length with
    | 'p' :: 'x' :: r => some (d, r)
    | _ => none

/-- JS regex line terminators, the characters excluded by `.`:
LF, CR, U+2028 and U+2029. -/
def isLineTerm (c : Char) : Bool :=
  c = '\n' || c = '\r' || c = Char.ofNat 8232 || c = Char.ofNat 8233

/-- One attempt of the box-shadow regex
`(\\d+)px\\s+(\\d+)px\\s+(\\d+)px\\s+(.+)` at the head of `cs`; returns the four
captured groups.  JS `.` excludes line terminators, so the greedy `(.+)`
capture stops at the first line terminator; when the final `\\s+` runs to the
end of the string, it backtracks one character at a time until the character
at the capture start is not a line terminator, and the capture is then that
single character (everything after it is a line terminator). -/
def shadowTryAt (cs : Str) : Option (Str × Str × Str × Str) :=
  match pxSegTry cs with
  | none => none
  | some (d1, r2) =>
    let w1 := r2.takeWhile isJsSpace
    if w1 = [] then none
    else
      match pxSegTry (r2.drop w1.length) with
      | none => none
      | some (d2, r4) =>
        let w2 := r4.takeWhile isJsSpace
        if w2 = [] then none
        else
          match pxSegTry (r4.drop w2.length) with
          | none => none
          | some (d3, r6) =>
            let w3 := r6.takeWhile isJsSpace
            if w3 = [] then none
            else
              let r7 := r6.drop w3.length
              if r7 ≠ [] then
                some (d1, d2, d3, r7.takeWhile (fun ch => !(isLineTerm ch)))
              else
                match (w3.drop 1).reverse.dropWhile isLineTerm with
                | [] => none
                | c :: _ => some (d1, d2, d3, [c])

/-- Unanchored search with `shadowTryAt`. -/
def shadowScan : Str → Option (Str × Str × Str × Str)
  | [] => none
  | c :: rest =>
    match shadowTryAt (c :: rest) with
    | some v => some v
    | none => shadowScan rest

/-- `parseBoxShadow`: the narrow single-shadow shape, with the shadow color
resolved by `parseColor` and a fixed alpha of `0.1`. -/
def parseBoxShadow (boxShadow : Str) : Option DropShadowEffect :=
  match shadowScan boxShadow with
  | some (g1, g2, g3, g4) =>
    let offsetX : ℤ := (jsParseInt g1).getD 0
    let offsetY : ℤ := (jsParseInt g2).getD 0
    let blur : ℤ := (jsParseInt g3).getD 0
    match parseColor g4 with
    | some c =>
      some ⟨⟨c.r, c.g, c.b, 1 / 10⟩, (offsetX : ℚ), (offsetY : ℚ), (blur : ℚ)⟩
    | none => none
  | none => none

/-! ### Element types and the cascade resolver (html-parser) -/

/-- `SimpleElement` of the HTML parser. -/
structure SimpleElement where
  tagName : Str
  attributes : List (Str × Str)
  textContent : Str
  children : List SimpleElement

/-- `ParsedElement` (element with cascaded styles). -/
structure ParsedElement where
  tagName : Str
  textContent : Str
  attributes : List (Str × Str)
  styles : StyleMap
  children : List ParsedElement

/-- Truthy property access on a string map: JS `obj.key` used in a boolean
position is falsy for both a missing key and an empty-string value. -/
def getTruthy (m : List (Str × Str)) (k : Str) : Option Str :=
  match lookupA m k with
  | some v => if v = [] then none else some v
  | none => none

/-- `parseInlineStyles`: split the inline `style` attribute on `;`, then each
declaration on `:` keeping only the first two parts, trim, keep truthy
property/value pairs. -/
def parseInlineStyles (styleStr : Str) : StyleMap :=
  if styleStr = [] then []
  else
    (charSplit ';' styleStr).foldl
      (fun acc declaration =>
        match (charSplit ':' declaration).map jsTrim with
        | property :: value :: _ =>
          if property ≠ [] ∧ value ≠ [] then upsertP acc property value else acc
        | _ => acc)
      []

/-- The dot-separated class tokens of a selector
(`selector.split('.').filter(c => c.trim())`). -/
def splitClasses (sel : Str) : List Str :=
  (charSplit '.' sel).filter (fun c => jsTrim c ≠ [])

/-- The classes of an element
(`element.attributes.class.split(' ').filter(c => c.trim())`). -/
def classesOf (classAttr : Str) : List Str :=
  (charSplit ' ' classAttr).filter (fun c => jsTrim c ≠ [])

/-- The body of the per-class loop of `applyCssStyles`: simple `.class`
selector lookup, then the compound-class sweep over all known selectors. -/
def classBody (cssStyles : CssTable) (classes : List Str) (acc : StyleMap) (className : Str) : StyleMap :=
  let classSelector := '.' :: jsTrim className
  let acc1 :=
    match lookupA cssStyles classSelector with
    | some ps => assign acc ps
    | none => acc
  cssStyles.foldl
    (fun a q =>
      if containsSub ('.' :: className) q.1 = true ∧ q.1 ≠ classSelector then
        if (splitClasses q.1).all (fun sc => classes.contains sc) then assign a q.2 else a
      else a)
    acc1

/-- The class step of `applyCssStyles` (runs only when the `class` attribute
is truthy). -/
def classStep (cssStyles : CssTable) (element : SimpleElement) (acc : StyleMap) : StyleMap :=
  match getTruthy element.attributes (chars "class") with
  | some classAttr =>
    let classes := classesOf classAttr
    classes.foldl (classBody cssStyles classes) acc
  | none => acc

/-- The descendant-selector step of `applyCssStyles`: any selector containing
a space and no `.`/`#`, whose last space-separated token equals the tag name,
is applied. -/
def descendantStep (cssStyles : CssTable) (element : SimpleElement) (acc : StyleMap) : StyleMap :=
  cssStyles.foldl
    (fun a q =>
      if containsSub (chars " ") q.1 = true ∧ containsSub (chars ".") q.1 = false ∧
          containsSub (chars "#") q.1 = false then
        let parts := (charSplit ' ' q.1).map jsTrim
        if parts.getLast? = some element.tagName then assign a q.2 else a
      else a)
    acc

/-- The rule-derived part of `applyCssStyles` (everything before the inline
overlay): universal `*`, tag, classes, id, `tag:hover`, descendant
selectors, in that order. -/
def ruleStyles (element : SimpleElement) (cssStyles : CssTable) : StyleMap :=
  let s1 :=
    match lookupA cssStyles (chars "*") with
    | some ps => assign [] ps
    | none => []
  let s2 :=
    match lookupA cssStyles element.tagName with
    | some ps => assign s1 ps
    | none => s1
  let s3 := classStep cssStyles element s2
  let s4 :=
    match getTruthy element.attributes (chars "id") with
    | some idv =>
      match lookupA cssStyles ('#' :: idv) with
      | some ps => assign s3 ps
      | none => s3
    | none => s3
  let s5 :=
    match lookupA cssStyles (element.tagName ++ chars ":hover") with
    | some ps => assign s4 ps
    | none => s4
  descendantStep cssStyles element s5

/-- `applyCssStyles`: cascade merge of all rule sources, with the inline
styles overlaid last. -/
def applyCssStyles (element : SimpleElement) (cssStyles : CssTable) (inlineStyles : StyleMap) : StyleMap :=
  assign (ruleStyles element cssStyles) inlineStyles

mutual

/-- `convertToParseElement`: attach cascaded styles to an element tree. -/
def convertToParseElement (element : SimpleElement) (cssStyles : CssTable) : ParsedElement :=
  { tagName := element.tagName
    textContent := element.textContent
    attributes := element.attributes
    styles :=
      applyCssStyles element cssStyles
        (parseInlineStyles ((lookupA element.attributes (chars "style")).getD []))
    children := convertChildren element.children cssStyles }
termination_by sizeOf element
decreasing_by cases element; simp +arith

/-- Mapping `convertToParseElement` over a child list. -/
def convertChildren : List SimpleElement → CssTable → List ParsedElement
  | [], _ => []
  | e :: es, css => convertToParseElement e css :: convertChildren es css
termination_by es _ => sizeOf es
decreasing_by all_goals simp +arith

end

/-! ### Figma node model and applyBasicStyles -/

inductive NodeType where
  | FRAME
  | RECTANGLE
  | TEXT
deriving DecidableEq

/-- The slice of a Figma scene node that `applyBasicStyles` and the node
factories touch.  Fill/stroke/effect lists in the source always hold at most
one entry, modelled as options. -/
structure FigNode where
  nodeType : NodeType
  width : ℚ
  height : ℚ
  cornerRadius : ℚ
  topLeftRadius : ℚ
  topRightRadius : ℚ
  bottomLeftRadius : ℚ
  bottomRightRadius : ℚ
  paddingTop : ℚ
  paddingRight : ℚ
  paddingBottom : ℚ
  paddingLeft : ℚ
  strokeWeight : ℚ
  fills : Option RGB
  strokes : Option RGB
  effects : Option DropShadowEffect
deriving DecidableEq

/-- `node.resize(w, h)`. -/
def resizeN (n : FigNode) (w h : ℚ) : FigNode := { n with width := w, height := h }

/-- The width part of `applyBasicStyles`: explicit `width` wins when its
parsed size is positive, else `max-width` caps the current width. -/
def widthStep (n : FigNode) (st : StyleMap) : FigNode :=
  match getTruthy st (chars "width") with
  | some wv =>
    let width := parseSize wv
    if 0 < width then resizeN n width n.height else n
  | none =>
    match getTruthy st (chars "max-width") with
    | some mv =>
      let maxWidth := parseSize mv
      if 0 < maxWidth ∧ maxWidth < n.width then resizeN n maxWidth n.height else n
    | none => n

/-- The height part of `applyBasicStyles`: explicit `height` wins when
positive, else `min-height` raises the current height. -/
def heightStep (n : FigNode) (st : StyleMap) : FigNode :=
  match getTruthy st (chars "height") with
  | some hv =>
    let height := parseSize hv
    if 0 < height then resizeN n n.width height else n
  | none =>
    match getTruthy st (chars "min-height") with
    | some mv =>
      let minHeight := parseSize mv
      if 0 < minHeight ∧ n.height < minHeight then resizeN n n.width minHeight else n
    | none => n

/-- The background part of `applyBasicStyles`
(`background-color || background`, applied only when resolvable). -/
def bgStep (n : FigNode) (st : StyleMap) : FigNode :=
  match myOr (getTruthy st (chars "background-color")) (getTruthy st (chars "background")) with
  | some bg =>
    match parseColor bg with
    | some color => { n with fills := some color }
    | none => n
  | none => n

/-- The border-radius part of the frame-only section. -/
def radiusStep (n : FigNode) (st : StyleMap) : FigNode :=
  match getTruthy st (chars "border-radius") with
  | some rv =>
    let radius := parseSize rv
    if 0 ≤ radius then { n with cornerRadius := radius } else n
  | none =>
    let n1 :=
      match getTruthy st (chars "border-top-left-radius") with
      | some v => { n with topLeftRadius := parseSize v }
      | none => n
    let n2 :=
      match getTruthy st (chars "border-top-right-radius") with
      | some v => { n1 with topRightRadius := parseSize v }
      | none => n1
    let n3 :=
      match getTruthy st (chars "border-bottom-left-radius") with
      | some v => { n2 with bottomLeftRadius := parseSize v }
      | none => n2
    match getTruthy st (chars "border-bottom-right-radius") with
    | some v => { n3 with bottomRightRadius := parseSize v }
    | none => n3

/-- The border part of the frame-only section. -/
def borderStep (n : FigNode) (st : StyleMap) : FigNode :=
  match myOr (getTruthy st (chars "border")) (getTruthy st (chars "border-width")) with
  | some _ =>
    let borderWidth :=
      parseSize ((myOr (getTruthy st (chars "border-width")) (getTruthy st (chars "border"))).getD (chars "1"))
    let borderColor := parseColor ((getTruthy st (chars "border-color")).getD (chars "#ddd"))
    match borderColor with
    | some bc =>
      if 0 < borderWidth then { n with strokes := some bc, strokeWeight := borderWidth } else n
    | none => n
  | none => n

/-- The box-shadow part of the frame-only section. -/
def shadowStep (n : FigNode) (st : StyleMap) : FigNode :=
  match getTruthy st (chars "box-shadow") with
  | some sv =>
    match parseBoxShadow sv with
    | some shadow => { n with effects := some shadow }
    | none => n
  | none => n

/-- The padding part of the frame-only section (shorthand `padding`, clamped
at 0, else the four individual paddings with default 0). -/
def padStep (n : FigNode) (st : StyleMap) : FigNode :=
  match getTruthy st (chars "padding") with
  | some pv =>
    let padding := parseSize pv
    let p := if 0 ≤ padding then padding else 0
    { n with paddingTop := p, paddingRight := p, paddingBottom := p, paddingLeft := p }
  | none =>
    let pt := match getTruthy st (chars "padding-top") with
      | some v => parseSize v
      | none => 0
    let pr := match getTruthy st (chars "padding-right") with
      | some v => parseSize v
      | none => 0
    let pb := match getTruthy st (chars "padding-bottom") with
      | some v => parseSize v
      | none => 0
    let pl := match getTruthy st (chars "padding-left") with
      | some v => parseSize v
      | none => 0
    { n with paddingTop := pt, paddingRight := pr, paddingBottom := pb, paddingLeft := pl }

/-- The frame-only section of `applyBasicStyles`. -/
def frameStep (n : FigNode) (st : StyleMap) : FigNode :=
  if n.nodeType = NodeType.FRAME then
    padStep (shadowStep (borderStep (radiusStep n st) st) st) st
  else n

/-- `applyBasicStyles`: width, height, background, and (for frames) radius,
border, shadow, padding, in source order; no-op on non-frame, non-rectangle
nodes. -/
def applyBasicStyles (node : FigNode) (element : ParsedElement) : FigNode :=
  if node.nodeType = NodeType.FRAME ∨ node.nodeType = NodeType.RECTANGLE then
    frameStep
      (bgStep (heightStep (widthStep node element.styles) element.styles) element.styles)
      element.styles
  else node

/-- A freshly created node before any styling, with the host defaults
(`figma.createRectangle()`/`createFrame()` start at 100 × 100, no strokes,
no effects, zero radii and paddings). -/
def blankNode (t : NodeType) : FigNode :=
  ⟨t, 100, 100, 0, 0, 0, 0, 0, 0, 0, 0, 0, 0, none, none, none⟩

/-- `createImageNode`: placeholder rectangle; size from the `width`/`height`
attributes via `parseInt(...) || default` (so `NaN` and `0` fall back to the
default, but other values — including negative ones — are applied as-is),
then `applyBasicStyles`, then the fixed placeholder fill and stroke. -/
def createImageNode (element : ParsedElement) : FigNode :=
  let width : ℚ :=
    match getTruthy element.attributes (chars "width") with
    | some w =>
      match jsParseInt w with
      | some v => if v = 0 then 200 else (v : ℚ)
      | none => 200
    | none => 200
  let height : ℚ :=
    match getTruthy element.attributes (chars "height") with
    | some h =>
      match jsParseInt h with
      | some v => if v = 0 then 150 else (v : ℚ)
      | none => 150
    | none => 150
  let rect := resizeN (blankNode NodeType.RECTANGLE) width height
  let rect := applyBasicStyles rect element
  { rect with
    fills := some (hexToRgb (chars "#E5E5EA"))
    strokes := some (hexToRgb (chars "#D1D1D6"))
    strokeWeight := 1 }

/-! ### HTML parsing pipeline (parseHtmlString and helpers)

The scanning loops below that are not structurally recursive take an
explicit fuel argument; their wrappers pass `length + 1`, which always
suffices because every iteration consumes at least one character, so the
out-of-fuel branches are unreachable. -/

def lbrace : Char := Char.ofNat 123

def rbrace : Char := Char.ofNat 125

def isQuoteCh (c : Char) : Bool := c = Char.ofNat 34 || c = Char.ofNat 39

/-- Remove every non-overlapping `openP … closeP` span (the lazy
`open[\s\S]*?close` replace-with-empty used for comments, scripts and style
blocks).  A span with no closing delimiter is left in place, matching the
regex (which then cannot match anywhere later either). -/
def removeDelimF (ci : Bool) (openP closeP : Str) : ℕ → Str → Str
  | 0, cs => cs
  | fuel + 1, cs =>
    match splitFirstSub ci openP cs with
    | none => cs
    | some (pre, afterOpen) =>
      match splitFirstSub ci closeP afterOpen with
      | none => cs
      | some (_, afterClose) => pre ++ removeDelimF ci openP closeP fuel afterClose

def removeDelim (ci : Bool) (openP closeP cs : Str) : Str :=
  removeDelimF ci openP closeP (cs.length + 1) cs

/-- The body-extraction match `<body[^>]*>([\s\S]*?)<\/body>/i`: first
`<body`, greedy attribute text to the first `>`, lazy content to the first
`</body>`; on a failed attempt the engine retries from the next `<body`
occurrence. -/
def bodyExtractF : ℕ → Str → Option Str
  | 0, _ => none
  | fuel + 1, cs =>
    match splitFirstSub true (chars "<body") cs with
    | none => none
    | some (_, afterOpen) =>
      let attrs := afterOpen.takeWhile (fun c => !(c == '>'))
      if attrs.length = afterOpen.length then none
      else
        let afterGt := afterOpen.drop (attrs.length + 1)
        match splitFirstSub true (chars "</body>") afterGt with
        | some (inner, _) => some inner
        | none => bodyExtractF fuel afterOpen

def bodyExtract (cs : Str) : Option Str := bodyExtractF (cs.length + 1) cs

/-- One attempt of the style-tag-stripping pattern `<\/?style[^>]*>/gi` at
the head of `cs`; returns the text after the match. -/
def styleTagTryAt (cs : Str) : Option Str :=
  match cs with
  | '<' :: r0 =>
    let r1 := match r0 with
      | '/' :: r => r
      | _ => r0
    if beginsWith true (chars "style") r1 then
      let r2 := r1.drop 5
      let attrs := r2.takeWhile (fun c => !(c == '>'))
      if attrs.length = r2.length then none else some (r2.drop (attrs.length + 1))
    else none
  | _ => none

/-- First match of the style-tag-stripping pattern anywhere in `cs`. -/
def findStyleTag : Str → Option (Str × Str)
  | [] => none
  | c :: rest =>
    match styleTagTryAt (c :: rest) with
    | some after => some ([], after)
    | none =>
      match findStyleTag rest with
      | some (pre, after) => some (c :: pre, after)
      | none => none

/-- `replace(/<\/?style[^>]*>/gi, '')` on a matched style block. -/
def stripStyleTagsF : ℕ → Str → Str
  | 0, cs => cs
  | fuel + 1, cs =>
    match findStyleTag cs with
    | none => cs
    | some (pre, rest) => pre ++ stripStyleTagsF fuel rest

def stripStyleTags (cs : Str) : Str := stripStyleTagsF (cs.length + 1) cs

/-- All matches of `<style[^>]*>([\s\S]*?)<\/style>/gi`, each already
stripped of its delimiting tags (the source keeps the full match text and
strips it with the case-insensitive tag pattern immediately afterwards; the
reconstruction below is equivalent under that case-insensitive strip). -/
def styleBlocksF : ℕ → Str → List Str
  | 0, _ => []
  | fuel + 1, cs =>
    match splitFirstSub true (chars "<style") cs with
    | none => []
    | some (_, afterOpen) =>
      let attrs := afterOpen.takeWhile (fun c => !(c == '>'))
      if attrs.length = afterOpen.length then []
      else
        let afterGt := afterOpen.drop (attrs.length + 1)
        match splitFirstSub true (chars "</style>") afterGt with
        | some (inner, rest) =>
          stripStyleTags (chars "<style" ++ attrs ++ ['>'] ++ inner ++ chars "</style>") ::
            styleBlocksF fuel rest
        | none => styleBlocksF fuel afterOpen

def styleBlocks (cs : Str) : List Str := styleBlocksF (cs.length + 1) cs

/-- The declaration scan `([^:;]+):\s*([^;]+)/g` of `parseCssRules`: property
text up to a `:`, value text up to the next `;` (or the end), both trimmed,
stored unconditionally (last occurrence of a property wins). -/
def parseDeclarationsF : ℕ → Str → StyleMap → StyleMap
  | 0, _, acc => acc
  | fuel + 1, cs, acc =>
    let run := cs.takeWhile (fun c => !(c == ':') && !(c == ';'))
    if run = [] then
      match cs with
      | [] => acc
      | _ :: rest => parseDeclarationsF fuel rest acc
    else
      match cs.drop run.length with
      | ':' :: rest =>
        let seg := rest.takeWhile (fun c => !(c == ';'))
        if seg = [] then parseDeclarationsF fuel rest acc
        else parseDeclarationsF fuel (rest.drop seg.length) (upsertP acc (jsTrim run) (jsTrim seg))
      | _ => parseDeclarationsF fuel (cs.drop run.length) acc

/-- The rule scan `([^{]+)\{([^}]+)\}/g` of `parseCssRules`: selector text
(trimmed) mapped to its parsed declaration block; a later rule for the same
selector replaces the earlier one wholesale. -/
def parseRulesF : ℕ → Str → CssTable → CssTable
  | 0, _, styles => styles
  | fuel + 1, cs, styles =>
    match splitFirstSub false [lbrace] cs with
    | none => styles
    | some (pre, afterBrace) =>
      if pre = [] then parseRulesF fuel afterBrace styles
      else
        match splitFirstSub false [rbrace] afterBrace with
        | none => styles
        | some (body, rest) =>
          if body = [] then parseRulesF fuel afterBrace styles
          else
            parseRulesF fuel rest
              (upsertP styles (jsTrim pre) (parseDeclarationsF (body.length + 1) body []))

/-- `parseCssRules`, folding rules into the shared selector table. -/
def parseCssRules (css : Str) (styles : CssTable) : CssTable :=
  parseRulesF (css.length + 1) css styles

/-- `extractCssStyles`: every style block of the document parsed into one
selector table. -/
def extractCssStyles (html : Str) : CssTable :=
  (styleBlocks html).foldl (fun styles cssContent => parseCssRules cssContent styles) []

/-- The attribute scan `(\w+)(?:\s*=\s*["']([^"']*)["'])?/g`: a word run,
optionally followed by `=` and a quoted value (either quote character opens
or closes); a name without a parsable value maps to the empty string. -/
def parseAttributesF : ℕ → Str → List (Str × Str) → List (Str × Str)
  | 0, _, acc => acc
  | fuel + 1, cs, acc =>
    match cs with
    | [] => acc
    | _ :: rest =>
      let name := cs.takeWhile isWordChar
      if name = [] then parseAttributesF fuel rest acc
      else
        let r := cs.drop name.length
        let r1 := r.dropWhile isJsSpace
        match r1 with
        | '=' :: r2 =>
          let r3 := r2.dropWhile isJsSpace
          match r3 with
          | q :: r4 =>
            if isQuoteCh q then
              let v := r4.takeWhile (fun c2 => !(isQuoteCh c2))
              match r4.drop v.length with
              | _ :: r6 => parseAttributesF fuel r6 (upsertP acc name v)
              | [] => parseAttributesF fuel r (upsertP acc name [])
            else parseAttributesF fuel r (upsertP acc name [])
          | [] => parseAttributesF fuel r (upsertP acc name [])
        | _ => parseAttributesF fuel r (upsertP acc name [])

def parseAttributes (s : Str) : List (Str × Str) := parseAttributesF (s.length + 1) s []

/-- Tag removal `replace(/<[^>]*>/g, '')` inside `extractTextContent`. -/
def stripTagsF : ℕ → Str → Str
  | 0, cs => cs
  | fuel + 1, cs =>
    match cs with
    | [] => []
    | c :: rest =>
      if c = '<' then
        let inside := rest.takeWhile (fun c2 => !(c2 == '>'))
        if inside.length = rest.length then cs
        else stripTagsF fuel (rest.drop (inside.length + 1))
      else c :: stripTagsF fuel rest

/-- `extractTextContent`: inner HTML with all tags stripped, trimmed. -/
def extractTextContent (html : Str) : Str := jsTrim (stripTagsF (html.length + 1) html)

/-- One successful application of the element pattern
`<(\w+)([^>]*?)(?:\s*\/\s*>|>([\s\S]*?)<\/\1>)/g`. -/
structure TagMatch where
  tagName : Str
  attrsRaw : Str
  content : Str
  rest : Str

/-- Attempt the element pattern with a fixed tag-name capture `name`,
`after` being the text following it.  The lazy attribute capture `[^>]*?`
cannot cross the first `>`; the alternation prefers the self-closing arm
`\s*\/\s*>` (with the lazy capture giving it the longest whitespace run),
else the content arm takes everything up to the first `</name>` (a
case-sensitive backreference). -/
def tryOnce (name : Str) (after : Str) : Option TagMatch :=
  let region := after.takeWhile (fun c => !(c == '>'))
  if region.length = after.length then none
  else
    let afterGt := after.drop (region.length + 1)
    match region.reverse.dropWhile isJsSpace with
    | '/' :: revPre => some ⟨jsToLower name, (revPre.dropWhile isJsSpace).reverse, [], afterGt⟩
    | _ =>
      match splitFirstSub false ('<' :: '/' :: (name ++ ['>'])) afterGt with
      | some (content, rest) => some ⟨jsToLower name, region, content, rest⟩
      | none => none

/-- Backtracking of the greedy `(\w+)` capture: try the full word run first,
then shorter prefixes (the given-back characters join the attribute text).
The run is passed reversed so each step peels its last character. -/
def tryBT : Str → Str → Option TagMatch
  | [], _ => none
  | c :: revRest, after =>
    match tryOnce (c :: revRest).reverse after with
    | some m => some m
    | none => tryBT revRest (c :: after)

/-- First match of the element pattern anywhere in the text (a failed
attempt moves the scan past the current `<`). -/
def findFirstMatch : Str → Option TagMatch
  | [] => none
  | c :: rest =>
    if c = '<' then
      let name := rest.takeWhile isWordChar
      if name = [] then findFirstMatch rest
      else
        match tryBT name.reverse (rest.drop name.length) with
        | some m => some m
        | none => findFirstMatch rest
    else findFirstMatch rest

/-- `parseElements`: repeatedly match the element pattern, skip `script` and
`style`, recurse into the matched content for children.  `none` is the
out-of-fuel sentinel; `parseElements` itself always receives enough fuel
(see `parseElementsF_isSome`). -/
def parseElementsF : ℕ → Str → CssTable → Option (List SimpleElement)
  | 0, _, _ => none
  | fuel + 1, html, cssStyles =>
    match findFirstMatch html with
    | none => some []
    | some m =>
      if m.tagName = chars "script" ∨ m.tagName = chars "style" then
        parseElementsF fuel m.rest cssStyles
      else
        match parseElementsF fuel m.content cssStyles, parseElementsF fuel m.rest cssStyles with
        | some children, some siblings =>
          some ({ tagName := m.tagName
                  attributes := parseAttributes m.attrsRaw
                  textContent := extractTextContent m.content
                  children := children } :: siblings)
        | _, _ => none

/-- `parseHtmlString`: extract the style table, strip comments, scripts and
style blocks, narrow to the body when present, then scan for elements (the
source retries the identical scan when it found nothing, and its `catch`
returns an empty list). -/
def parseTopLevel (cs : Str) (cssStyles : CssTable) : Option (List SimpleElement) :=
  match parseElementsF (cs.length + 1) cs cssStyles with
  | some elements =>
    if elements.isEmpty then parseElementsF (cs.length + 1) cs cssStyles
    else some elements
  | none => none

def parseHtmlStringF (html : Str) : Option (List SimpleElement) :=
  let cssStyles := extractCssStyles html
  let h1 := removeDelim false (chars "<!--") (chars "-->") html
  let h2 := removeDelim true (chars "<script") (chars "</script>") h1
  let h3 := removeDelim true (chars "<style") (chars "</style>") h2
  let h4 :=
    match bodyExtract h3 with
    | some inner => inner
    | none => h3
  parseTopLevel h4 cssStyles

def parseHtmlString (html : Str) : List SimpleElement := (parseHtmlStringF html).getD []

/-- `HtmlParseResult` of the plugin entry point. -/
structure HtmlParseResult where
  elements : List ParsedElement
  success : Bool
  error : Option Str

/-- `parseHtml`, pure projection: the empty-input and no-elements-found
validations, then conversion of the scanned elements.  The per-element
Figma node creation loop is side-effecting in the host; in this pure model
every dispatch branch of `createFigmaNodeFromElement` returns a node, so
the `nodes.length === 0` fallback branch is unreachable and the success
path returns the converted elements. -/
def parseHtml (htmlContent : Str) : HtmlParseResult :=
  if htmlContent = [] ∨ jsTrim htmlContent = [] then
    ⟨[], false, some (chars "HTML内容为空")⟩
  else
    let elements := parseHtmlString htmlContent
    if elements.isEmpty then
      ⟨[], false, some (chars "未找到有效的HTML元素，请检查HTML格式")⟩
    else
      let cssStyles := extractCssStyles htmlContent
      ⟨elements.map (fun el => convertToParseElement el cssStyles), true, none⟩

/-! ### Concrete fixtures used by the theorems -/

/-- Element of the cascade-precedence scenario: tag `div`, class `card`,
inline `style="color:red"`. -/
def exDivCard : SimpleElement :=
  ⟨chars "div", [(chars "class", chars "card"), (chars "style", chars "color:red")], [], []⟩

/-- Rule table `div{color:blue} .card{color:green}`. -/
def exCssCardTable : CssTable :=
  [(chars "div", [(chars "color", chars "blue")]),
   (chars ".card", [(chars "color", chars "green")])]

/-- Element matched by every selector source of the precedence chain. -/
def exChainElement : SimpleElement :=
  ⟨chars "div", [(chars "class", chars "card"), (chars "id", chars "main")], [], []⟩

/-- One rule per precedence source, each setting property `x`. -/
def exChainCss : CssTable :=
  [(chars "*", [(chars "x", chars "u")]),
   (chars "div", [(chars "x", chars "t")]),
   (chars ".card", [(chars "x", chars "c")]),
   (chars "#main", [(chars "x", chars "i")]),
   (chars "div:hover", [(chars "x", chars "h")]),
   (chars "body div", [(chars "x", chars "d")])]

/-- Element with class attribute `"c b a"`. -/
def exCompoundElement : SimpleElement :=
  ⟨chars "div", [(chars "class", chars "c b a")], [], []⟩

/-- Compound-class rule table `.a.b{x:1}`. -/
def exCompoundCss : CssTable := [(chars ".a.b", [(chars "x", chars "1")])]

/-- `<img width="-5">` as a parsed element. -/
def exImgNeg : ParsedElement := ⟨chars "img", [], [(chars "width", chars "-5")], [], []⟩

/-! ## Theorems

First a layer of lemmas about the association-list maps and the scanners,
then one theorem (plus witness / counterexample) per claim. -/

lemma lookupA_upsertP {α : Type} (m : List (Str × α)) (k : Str) (v : α) (k2 : Str) :
    lookupA (upsertP m k v) k2 = if k2 = k then some v else lookupA m k2 := by
  induction m with
  | nil =>
    by_cases h : k2 = k
    · simp [upsertP, lookupA, h]
    · have hk2 : ¬ k = k2 := fun he => h he.symm
      simp [upsertP, lookupA, h, hk2]
  | cons q rest ih =>
    by_cases hqk : q.1 = k
    · by_cases h : k2 = k
      · simp [upsertP, lookupA, hqk, h]
      · have hk2 : ¬ k = k2 := fun he => h he.symm
        simp [upsertP, lookupA, hqk, h, hk2]
    · by_cases hq2 : q.1 = k2
      · have h : ¬ k2 = k := fun he => hqk (hq2.trans he)
        simp [upsertP, lookupA, hqk, hq2, h]
      · simp [upsertP, lookupA, hqk, hq2, ih]

lemma lookupA_none_of_not_mem {α : Type} (m : List (Str × α)) (k : Str)
    (h : k ∉ m.map Prod.fst) : lookupA m k = none := by
  induction m with
  | nil => rfl
  | cons q rest ih =>
    simp only [List.map_cons, List.mem_cons] at h
    push_neg at h
    have hq : ¬ q.1 = k := fun he => h.1 he.symm
    simp [lookupA, hq, ih h.2]

lemma mem_keys_upsertP (m : StyleMap) (k v k2 : Str)
    (h : k2 ∈ (upsertP m k v).map Prod.fst) : k2 = k ∨ k2 ∈ m.map Prod.fst := by
  induction m with
  | nil => simp [upsertP] at h; exact Or.inl h
  | cons q rest ih =>
    by_cases hqk : q.1 = k
    · simp only [upsertP, if_pos hqk, List.map_cons, List.mem_cons] at h
      rcases h with h | h
      · exact Or.inl h
      · exact Or.inr (by simp [h])
    · simp only [upsertP, if_neg hqk, List.map_cons, List.mem_cons] at h
      rcases h with h | h
      · exact Or.inr (by simp [h])
      · rcases ih h with h2 | h2
        · exact Or.inl h2
        · exact Or.inr (by simp [h2])

lemma keysNodup_upsertP (m : StyleMap) (k v : Str) (h : keysNodup m) :
    keysNodup (upsertP m k v) := by
  induction m with
  | nil => simp [upsertP, keysNodup]
  | cons q rest ih =>
    unfold keysNodup at h ⊢
    simp only [List.map_cons, List.nodup_cons] at h
    by_cases hqk : q.1 = k
    · simp only [upsertP, if_pos hqk, List.map_cons, List.nodup_cons]
      exact ⟨hqk ▸ h.1, h.2⟩
    · simp only [upsertP, if_neg hqk, List.map_cons, List.nodup_cons]
      refine ⟨fun hmem => ?_, ih h.2⟩
      rcases mem_keys_upsertP rest k v q.1 hmem with h2 | h2
      · exact hqk h2
      · exact h.1 h2

lemma lookupA_assign (t src : StyleMap) (hnd : keysNodup src) (k : Str) :
    lookupA (assign t src) k = myOr (lookupA src k) (lookupA t k) := by
  induction src generalizing t with
  | nil => simp [assign, lookupA, myOr]
  | cons q rest ih =>
    unfold keysNodup at hnd
    simp only [List.map_cons, List.nodup_cons] at hnd
    have hstep : assign t (q :: rest) = assign (upsertP t q.1 q.2) rest := by
      simp [assign]
    rw [hstep, ih (upsertP t q.1 q.2) hnd.2]
    by_cases hk : q.1 = k
    · have hrest : lookupA rest k = none :=
        lookupA_none_of_not_mem rest k (hk ▸ hnd.1)
      simp [lookupA, hk, hrest, myOr, lookupA_upsertP]
    · have hk2 : ¬ k = q.1 := fun h => hk h.symm
      simp [lookupA, hk, myOr, lookupA_upsertP, hk2]

lemma assign_nil (t : StyleMap) : assign t [] = t := rfl

lemma keysNodup_nil : keysNodup [] := by simp [keysNodup]

lemma foldl_preserve {β : Type} (P : StyleMap → Prop) (f : StyleMap → β → StyleMap)
    (hf : ∀ acc b, P acc → P (f acc b)) :
    ∀ (l : List β) (acc : StyleMap), P acc → P (l.foldl f acc) := by
  intro l
  induction l with
  | nil => intro acc h; exact h
  | cons b bs ih => intro acc h; exact ih (f acc b) (hf acc b h)

lemma keysNodup_parseInlineStyles (s : Str) : keysNodup (parseInlineStyles s) := by
  unfold parseInlineStyles
  split
  · exact keysNodup_nil
  · refine foldl_preserve keysNodup _ ?_ _ [] keysNodup_nil
    intro acc b h
    cases hp : (charSplit ':' b).map jsTrim with
    | nil => exact h
    | cons property rest2 =>
      cases rest2 with
      | nil => exact h
      | cons value tail =>
        by_cases hc : property ≠ [] ∧ value ≠ []
        · simpa [hc] using keysNodup_upsertP _ _ _ h
        · simpa [hc] using h

/-- Claim C1: cascade precedence.  `applyCssStyles` merges per-property in
increasing precedence — universal `*`, tag, classes, id, `tag:hover`,
descendant selectors — with the inline style overlay applied last and
overwriting every rule-derived source.  The first conjunct proves the
inline-wins property for every element, rule table, inline style string and
property; the remaining conjuncts are the spec's `div.card` example
(`color = red` with the inline style, `green` without) and a six-source
chain on one element whose effective value tracks exactly the last
applicable source as the table grows source by source. -/
theorem claim_C1 :
    (∀ (e : SimpleElement) (css : CssTable) (s p v : Str),
        lookupA (parseInlineStyles s) p = some v →
        lookupA (applyCssStyles e css (parseInlineStyles s)) p = some v)
    ∧ lookupA (applyCssStyles exDivCard exCssCardTable (parseInlineStyles (chars "color:red")))
        (chars "color") = some (chars "red")
    ∧ lookupA (applyCssStyles exDivCard exCssCardTable (parseInlineStyles (chars "")))
        (chars "color") = some (chars "green")
    ∧ lookupA (applyCssStyles exChainElement exChainCss (parseInlineStyles (chars "x:z")))
        (chars "x") = some (chars "z")
    ∧ lookupA (applyCssStyles exChainElement exChainCss []) (chars "x") = some (chars "d")
    ∧ lookupA (applyCssStyles exChainElement (exChainCss.take 5) []) (chars "x") = some (chars "h")
    ∧ lookupA (applyCssStyles exChainElement (exChainCss.take 4) []) (chars "x") = some (chars "i")
    ∧ lookupA (applyCssStyles exChainElement (exChainCss.take 3) []) (chars "x") = some (chars "c")
    ∧ lookupA (applyCssStyles exChainElement (exChainCss.take 2) []) (chars "x") = some (chars "t")
    ∧ lookupA (applyCssStyles exChainElement (exChainCss.take 1) []) (chars "x") = some (chars "u") := by
  refine ⟨?_, ?_, ?_, ?_, ?_, ?_, ?_, ?_, ?_, ?_⟩
  · intro e css s p v h
    unfold applyCssStyles
    rw [lookupA_assign _ _ (keysNodup_parseInlineStyles s), h]
    rfl
  all_goals with_unfolding_all decide

/-- Witness for C1: the inline-wins conjunct applied to the concrete
`div.card` scenario. -/
theorem claim_C1_witness :
    lookupA (applyCssStyles exDivCard exCssCardTable (parseInlineStyles (chars "color:red")))
      (chars "color") = some (chars "red") :=
  claim_C1.1 exDivCard exCssCardTable (chars "color:red") (chars "color") (chars "red")
    (by with_unfolding_all decide)

/-- Claim C7: the size-resolver unit table — `em`/`rem` ×16, `%` numeric
pass-through, `vh` ×10, `vw` ×14, `pt` ×1.33, unitless/unrecognized numeric
pass-through, and 0 for non-numeric or empty input (first conjunct: every
`NaN` input yields 0). -/
theorem claim_C7 :
    (∀ s : Str, jsParseFloat s = none → parseSize s = 0)
    ∧ parseSize (chars "2em") = 32
    ∧ parseSize (chars "1.5rem") = 24
    ∧ parseSize (chars "50%") = 50
    ∧ parseSize (chars "5vh") = 50
    ∧ parseSize (chars "3vw") = 42
    ∧ parseSize (chars "10pt") = 133 / 10
    ∧ parseSize (chars "42") = 42
    ∧ parseSize (chars "12px") = 12
    ∧ parseSize (chars "abc") = 0
    ∧ parseSize (chars "") = 0 := by
  refine ⟨?_, ?_, ?_, ?_, ?_, ?_, ?_, ?_, ?_, ?_, ?_⟩
  · intro s h
    unfold parseSize
    split
    · rfl
    · simp [h]
  all_goals with_unfolding_all decide

/-- Witness for C7: the non-numeric conjunct applied at a concrete input. -/
theorem claim_C7_witness : parseSize (chars "zz") = 0 :=
  claim_C7.1 (chars "zz") (by with_unfolding_all decide)

lemma jsParseFloat_nil : jsParseFloat [] = none := rfl

lemma beginsWith_append_self (pat t : Str) : beginsWith false pat (pat ++ t) = true := by
  induction pat with
  | nil => rfl
  | cons p ps ih => simp [beginsWith, chEq, ih]

lemma splitFirstSub_isSome_of_begins (pat cs : Str) (h : beginsWith false pat cs = true) :
    (splitFirstSub false pat cs).isSome = true := by
  cases cs with
  | nil => simp [splitFirstSub, h]
  | cons c rest => simp [splitFirstSub, h]

lemma containsSub_append (pre pat suf : Str) : containsSub pat (pre ++ pat ++ suf) = true := by
  induction pre with
  | nil =>
    unfold containsSub
    exact splitFirstSub_isSome_of_begins pat (pat ++ suf) (beginsWith_append_self pat suf)
  | cons c pre2 ih =>
    unfold containsSub at ih ⊢
    rw [List.append_assoc] at ih ⊢
    by_cases hb : beginsWith false pat (c :: (pre2 ++ (pat ++ suf))) = true
    · simp [splitFirstSub, hb]
    · rcases h2 : splitFirstSub false pat (pre2 ++ (pat ++ suf)) with _ | ⟨p2, s2⟩
      · rw [h2] at ih; simp at ih
      · simp [splitFirstSub, hb, h2]

lemma beginsWith_take (pat : Str) : ∀ cs : Str, beginsWith false pat cs = true →
    cs = pat ++ cs.drop pat.length := by
  induction pat with
  | nil => intro cs _; simp
  | cons p ps ih =>
    intro cs h
    cases cs with
    | nil => simp [beginsWith] at h
    | cons c rest =>
      simp only [beginsWith, chEq, if_neg Bool.false_ne_true, Bool.and_eq_true,
        decide_eq_true_eq] at h
      rcases h with ⟨hpc, hrest⟩
      have := ih rest hrest
      simp [hpc, List.cons_append, List.length_cons, List.drop_succ_cons]
      exact this

lemma splitFirstSub_append_eq (pat : Str) : ∀ (cs pre suf : Str),
    splitFirstSub false pat cs = some (pre, suf) → cs = pre ++ pat ++ suf := by
  intro cs
  induction cs with
  | nil =>
    intro pre suf h
    unfold splitFirstSub at h
    split at h
    · rename_i hb
      cases pat with
      | nil => simp at h; simp [h.1, h.2]
      | cons p ps => simp [beginsWith] at hb
    · cases h
  | cons c rest ih =>
    intro pre suf h
    unfold splitFirstSub at h
    split at h
    · rename_i hb
      injection h with h2
      have hd := beginsWith_take pat (c :: rest) hb
      have hpre : pre = [] := by
        have := congrArg Prod.fst h2.symm
        simpa using this
      have hsuf : suf = (c :: rest).drop pat.length := by
        have := congrArg Prod.snd h2.symm
        simpa using this
      rw [hpre, hsuf]
      simpa using hd
    · rename_i hb
      rcases h2 : splitFirstSub false pat rest with _ | ⟨p2, s2⟩
      · rw [h2] at h; cases h
      · rw [h2] at h
        injection h with h3
        have hpre : pre = c :: p2 := by
          have := congrArg Prod.fst h3.symm
          simpa using this
        have hsuf : suf = s2 := by
          have := congrArg Prod.snd h3.symm
          simpa using this
        rw [hpre, hsuf]
        have := ih p2 s2 h2
        simp [this]

lemma containsSub_rem_em (s : Str) (h : containsSub (chars "rem") s = true) :
    containsSub (chars "em") s = true := by
  unfold containsSub at h
  rcases Option.isSome_iff_exists.mp h with ⟨⟨pre, suf⟩, hsp⟩
  have heq := splitFirstSub_append_eq (chars "rem") s pre suf hsp
  have : s = (pre ++ ['r']) ++ chars "em" ++ suf := by
    rw [heq]; simp [chars]
  rw [this]
  exact containsSub_append (pre ++ ['r']) (chars "em") suf

/-- Counterexample for C3: the claim includes `%`, `vh` and `vw` among the
units on which `parseFontSize` agrees with `parseSize`, but `parseFontSize`
rescales `%` by 16/100 and has no `vh`/`vw` branches at all. -/
theorem claim_C3_counterexample :
    parseFontSize (chars "50%") ≠ parseSize (chars "50%")
    ∧ parseFontSize (chars "50%") = 8 ∧ parseSize (chars "50%") = 50
    ∧ parseFontSize (chars "10vh") = 10 ∧ parseSize (chars "10vh") = 100
    ∧ parseFontSize (chars "10vw") = 10 ∧ parseSize (chars "10vw") = 140 := by
  with_unfolding_all decide

/-- Claim C3, amended: for numeric inputs, `parseFontSize` agrees with
`parseSize` on strings containing `em` (hence also `rem`), and on strings
with none of `em`/`%`/`vh`/`vw` (covering `pt` and plain pixel values); a
`%` input is rescaled to `parseSize s / 100 * 16` instead of being passed
through; `vh`/`vw` have no special handling in `parseFontSize`.  Named CSS
sizes `xx-small` = 9 … `xx-large` = 32 (case-insensitively) are returned
for non-numeric values, 16 for unknown names and empty input. -/
theorem claim_C3 :
    (∀ (s : Str) (q : ℚ), jsParseFloat s = some q → containsSub (chars "em") s = true →
        parseFontSize s = parseSize s)
    ∧ (∀ (s : Str) (q : ℚ), jsParseFloat s = some q → containsSub (chars "em") s = false →
        containsSub (chars "%") s = false → containsSub (chars "vh") s = false →
        containsSub (chars "vw") s = false → parseFontSize s = parseSize s)
    ∧ (∀ (s : Str) (q : ℚ), jsParseFloat s = some q → containsSub (chars "em") s = false →
        containsSub (chars "%") s = true → parseFontSize s = parseSize s / 100 * 16)
    ∧ parseFontSize (chars "xx-small") = 9
    ∧ parseFontSize (chars "x-small") = 10
    ∧ parseFontSize (chars "small") = 13
    ∧ parseFontSize (chars "medium") = 16
    ∧ parseFontSize (chars "large") = 18
    ∧ parseFontSize (chars "x-large") = 24
    ∧ parseFontSize (chars "XX-LARGE") = 32
    ∧ parseFontSize (chars "bogus") = 16
    ∧ parseFontSize (chars "") = 16 := by
  refine ⟨?_, ?_, ?_, ?_, ?_, ?_, ?_, ?_, ?_, ?_, ?_, ?_⟩
  · intro s q hf hem
    have hs : s ≠ [] := by
      intro he; rw [he, jsParseFloat_nil] at hf; cases hf
    simp [parseSize, parseFontSize, hs, hf, hem]
  · intro s q hf hem hpc hvh hvw
    have hs : s ≠ [] := by
      intro he; rw [he, jsParseFloat_nil] at hf; cases hf
    have hrem : containsSub (chars "rem") s = false := by
      cases h2 : containsSub (chars "rem") s
      · rfl
      · rw [containsSub_rem_em s h2] at hem; cases hem
    simp [parseSize, parseFontSize, hs, hf, hem, hrem, hpc, hvh, hvw]
  · intro s q hf hem hpc
    have hs : s ≠ [] := by
      intro he; rw [he, jsParseFloat_nil] at hf; cases hf
    have hrem : containsSub (chars "rem") s = false := by
      cases h2 : containsSub (chars "rem") s
      · rfl
      · rw [containsSub_rem_em s h2] at hem; cases hem
    simp [parseSize, parseFontSize, hs, hf, hem, hrem, hpc]
  all_goals with_unfolding_all decide

/-- Witness for C3: the three general conjuncts applied at `3em`, `7pt` and
`150%`. -/
theorem claim_C3_witness :
    parseFontSize (chars "3em") = parseSize (chars "3em")
    ∧ parseFontSize (chars "7pt") = parseSize (chars "7pt")
    ∧ parseFontSize (chars "150%") = parseSize (chars "150%") / 100 * 16 :=
  ⟨claim_C3.1 (chars "3em") 3 (by with_unfolding_all decide) (by with_unfolding_all decide),
   claim_C3.2.1 (chars "7pt") 7 (by with_unfolding_all decide) (by with_unfolding_all decide)
     (by with_unfolding_all decide) (by with_unfolding_all decide) (by with_unfolding_all decide),
   claim_C3.2.2.1 (chars "150%") 150 (by with_unfolding_all decide)
     (by with_unfolding_all decide) (by with_unfolding_all decide)⟩

/-- Counterexample for C4: `parseColor` does not accept hex colors without
the leading `#` (the named-color fallback misses and the result is the null
sentinel), and a 3-digit `#rgb` value yields black rather than the
corresponding triple. -/
theorem claim_C4_counterexample :
    parseColor (chars "ff0000") = none
    ∧ parseColor (chars "#f00") = some ⟨0, 0, 0⟩
    ∧ parseColor (chars "#f00") ≠ some ⟨1, 0, 0⟩
    ∧ parseColor (chars "#ff0000") = some ⟨1, 0, 0⟩ := by
  with_unfolding_all decide

/-- Claim C4, amended: `parseColor` accepts 6-digit `#rrggbb` hex colors
case-insensitively, but only with the leading `#` (the optional-`#` form is
accepted by the internal `hexToRgb` helper, which `parseColor` only reaches
for strings starting with `#`); 3-digit `#rgb` input reaches `hexToRgb`,
fails its 6-digit pattern and comes back as black `{0,0,0}`; a hex string
without `#` is not resolvable at the `parseColor` interface. -/
theorem claim_C4 :
    parseColor (chars "#ff0000") = some ⟨1, 0, 0⟩
    ∧ parseColor (chars "#FF0000") = some ⟨1, 0, 0⟩
    ∧ parseColor (chars "#AbCdEf") = some ⟨171 / 255, 205 / 255, 239 / 255⟩
    ∧ hexToRgb (chars "ff0000") = ⟨1, 0, 0⟩
    ∧ hexToRgb (chars "#ff0000") = ⟨1, 0, 0⟩
    ∧ hexToRgb (chars "FF0000") = ⟨1, 0, 0⟩
    ∧ parseColor (chars "#f00") = some ⟨0, 0, 0⟩
    ∧ parseColor (chars "ff0000") = none := by
  with_unfolding_all decide

/-- Counterexample for C10: `"#ff0000 "` (trailing space) begins with `#`
and its remainder is not exactly six hex digits, yet `parseColor` trims the
input first and returns red, not black. -/
theorem claim_C10_counterexample :
    (chars "#ff0000 ").head? = some '#'
    ∧ isHex6 (chars "#ff0000 ").tail = false
    ∧ parseColor (chars "#ff0000 ") ≠ some ⟨0, 0, 0⟩
    ∧ parseColor (chars "#ff0000 ") = some ⟨1, 0, 0⟩ := by
  with_unfolding_all decide

/-- Claim C10, amended: for every input whose trimmed, lowercased form
begins with `#` but whose remainder is not exactly six hex digits (e.g.
`#f00` or `#xyzxyz`), `parseColor` returns black `{0,0,0}` rather than the
null sentinel, so such malformed hex is indistinguishable from black at the
public interface. -/
theorem claim_C10 : ∀ s : Str,
    (jsToLower (jsTrim s)).head? = some '#' →
    isHex6 (jsToLower (jsTrim s)).tail = false →
    parseColor s = some ⟨0, 0, 0⟩ := by
  intro s h1 h2
  have hs : s ≠ [] := by
    intro he
    rw [he] at h1
    simp [jsTrim, jsToLower] at h1
  simp [parseColor, hexToRgb, hs, h1, h2]

/-- Witness for C10 at `#f00` and `#xyzxyz`. -/
theorem claim_C10_witness :
    parseColor (chars "#xyzxyz") = some ⟨0, 0, 0⟩ :=
  claim_C10 (chars "#xyzxyz") (by with_unfolding_all decide) (by with_unfolding_all decide)

lemma widthStep_height (n : FigNode) (st : StyleMap) : (widthStep n st).height = n.height := by
  unfold widthStep resizeN
  try dsimp only
  repeat' split
  all_goals rfl

lemma widthStep_width_pos (n : FigNode) (st : StyleMap) (h : 0 < n.width) :
    0 < (widthStep n st).width := by
  unfold widthStep resizeN
  try dsimp only
  repeat' split
  all_goals simp_all

lemma heightStep_width (n : FigNode) (st : StyleMap) : (heightStep n st).width = n.width := by
  unfold heightStep resizeN
  try dsimp only
  repeat' split
  all_goals rfl

lemma heightStep_height_pos (n : FigNode) (st : StyleMap) (h : 0 < n.height) :
    0 < (heightStep n st).height := by
  unfold heightStep resizeN
  try dsimp only
  repeat' split
  all_goals simp_all

lemma bgStep_geom (n : FigNode) (st : StyleMap) :
    (bgStep n st).width = n.width ∧ (bgStep n st).height = n.height := by
  unfold bgStep
  try dsimp only
  repeat' split
  all_goals exact ⟨rfl, rfl⟩

lemma radiusStep_geom (n : FigNode) (st : StyleMap) :
    (radiusStep n st).width = n.width ∧ (radiusStep n st).height = n.height := by
  unfold radiusStep
  try dsimp only
  repeat' split
  all_goals exact ⟨rfl, rfl⟩

lemma borderStep_geom (n : FigNode) (st : StyleMap) :
    (borderStep n st).width = n.width ∧ (borderStep n st).height = n.height := by
  unfold borderStep
  try dsimp only
  repeat' split
  all_goals exact ⟨rfl, rfl⟩

lemma shadowStep_geom (n : FigNode) (st : StyleMap) :
    (shadowStep n st).width = n.width ∧ (shadowStep n st).height = n.height := by
  unfold shadowStep
  try dsimp only
  repeat' split
  all_goals exact ⟨rfl, rfl⟩

lemma padStep_geom (n : FigNode) (st : StyleMap) :
    (padStep n st).width = n.width ∧ (padStep n st).height = n.height := by
  unfold padStep
  try dsimp only
  repeat' split
  all_goals exact ⟨rfl, rfl⟩

lemma frameStep_geom (n : FigNode) (st : StyleMap) :
    (frameStep n st).width = n.width ∧ (frameStep n st).height = n.height := by
  unfold frameStep
  split
  · constructor
    · rw [(padStep_geom _ _).1, (shadowStep_geom _ _).1, (borderStep_geom _ _).1,
        (radiusStep_geom _ _).1]
    · rw [(padStep_geom _ _).2, (shadowStep_geom _ _).2, (borderStep_geom _ _).2,
        (radiusStep_geom _ _).2]
  · exact ⟨rfl, rfl⟩

/-- Counterexample for C5: the image node emitted for `<img width="-5">`
carries a negative width — `parseInt` yields `-5`, which is truthy, so the
`|| 200` fallback does not engage and the negative size is applied by
`resize` unclamped. -/
theorem claim_C5_counterexample :
    (createImageNode exImgNeg).width = -5 ∧ (createImageNode exImgNeg).width < 0 := by
  with_unfolding_all decide

/-- Claim C5, amended: on the style-driven paths of `applyBasicStyles` the
applied widths and heights are guarded by strictly-positive checks, so a
node that starts with positive dimensions keeps them positive whatever the
element's styles are (negative or `NaN` parses are simply not applied); the
attribute-driven size of the image node, however, is only guarded against
`NaN` and `0` and can go negative (see the counterexample). -/
theorem claim_C5 : ∀ (element : ParsedElement) (node : FigNode),
    0 < node.width → 0 < node.height →
    0 < (applyBasicStyles node element).width ∧ 0 < (applyBasicStyles node element).height := by
  intro e n h1 h2
  unfold applyBasicStyles
  split
  · have hw1 : 0 < (widthStep n e.styles).width := widthStep_width_pos n e.styles h1
    have hh1 : 0 < (widthStep n e.styles).height := by
      rw [widthStep_height]; exact h2
    have hw2 : 0 < (heightStep (widthStep n e.styles) e.styles).width := by
      rw [heightStep_width]; exact hw1
    have hh2 : 0 < (heightStep (widthStep n e.styles) e.styles).height :=
      heightStep_height_pos _ e.styles hh1
    constructor
    · rw [(frameStep_geom _ _).1, (bgStep_geom _ _).1]
      exact hw2
    · rw [(frameStep_geom _ _).2, (bgStep_geom _ _).2]
      exact hh2
  · exact ⟨h1, h2⟩

/-- Witness for C5 on a frame with a negative `width` style: the dimensions
stay at their positive defaults. -/
theorem claim_C5_witness :
    0 < (applyBasicStyles (blankNode NodeType.FRAME)
        ⟨chars "div", [], [], [(chars "width", chars "-7")], []⟩).width
    ∧ 0 < (applyBasicStyles (blankNode NodeType.FRAME)
        ⟨chars "div", [], [], [(chars "width", chars "-7")], []⟩).height :=
  claim_C5 ⟨chars "div", [], [], [(chars "width", chars "-7")], []⟩ (blankNode NodeType.FRAME)
    (by with_unfolding_all decide) (by with_unfolding_all decide)

lemma isDigit_ne_of (c d : Char) (hd : d.isDigit = false) (hc : c.isDigit = true) : c ≠ d := by
  intro he
  subst he
  rw [hc] at hd
  cases hd

lemma isJsSpace_of_digit (c : Char) (hc : c.isDigit = true) : isJsSpace c = false := by
  cases hsp : isJsSpace c
  · rfl
  · exfalso
    unfold isJsSpace at hsp
    simp only [Bool.or_eq_true, decide_eq_true_eq] at hsp
    rcases hsp with (((((((h | h) | h) | h) | h) | h) | h) | h)
    all_goals rw [h] at hc
    all_goals exact absurd hc (by decide)

lemma takeWhile_eq_self_of_all {p : Char → Bool} (l : Str) (h : ∀ a ∈ l, p a = true) :
    l.takeWhile p = l := by
  induction l with
  | nil => rfl
  | cons a t ih =>
    rw [List.takeWhile_cons_of_pos (h a (List.mem_cons_self a t))]
    rw [ih (fun b hb => h b (List.mem_cons_of_mem a hb))]

lemma jsParseInt_digits (dx : Str) (h1 : dx ≠ []) (h2 : ∀ ch ∈ dx, ch.isDigit = true) :
    jsParseInt dx = some (digitsToNat dx : ℤ) := by
  rcases dx with _ | ⟨d, ds2⟩
  · exact absurd rfl h1
  have hd : d.isDigit = true := h2 d (List.mem_cons_self d ds2)
  have hdrop : (d :: ds2).dropWhile isJsSpace = d :: ds2 :=
    List.dropWhile_cons_of_neg (by simp [isJsSpace_of_digit d hd])
  have hdm : d ≠ '-' := isDigit_ne_of d '-' (by decide) hd
  have hdp : d ≠ '+' := isDigit_ne_of d '+' (by decide) hd
  unfold jsParseInt
  rw [hdrop]
  have hsign : ((d :: ds2).head? = some '-') = False := by
    simp [hdm]
  have hsignp : ((d :: ds2).head? = some '+') = False := by
    simp [hdp]
  simp only [hsign, hsignp, if_false, or_self, if_neg (fun h : False => h)]
  have hno0x : ¬ ((d :: ds2).head? = some '0' ∧
      ((d :: ds2).tail.head? = some 'x' ∨ (d :: ds2).tail.head? = some 'X')) := by
    rintro ⟨_, hx⟩
    rcases ds2 with _ | ⟨e, t⟩
    · simp at hx
    · have he : e.isDigit = true := h2 e (by simp)
      have hex : e ≠ 'x' := isDigit_ne_of e 'x' (by decide) he
      have heX : e ≠ 'X' := isDigit_ne_of e 'X' (by decide) he
      simp [hex, heX] at hx
  rw [if_neg hno0x]
  rw [takeWhile_eq_self_of_all (d :: ds2) h2]
  simp [h1]

lemma parseColor_nil : parseColor [] = none := rfl


lemma pxSegTry_exact (dx rest : Str) (h1 : dx ≠ []) (h2 : ∀ ch ∈ dx, ch.isDigit = true) :
    pxSegTry (dx ++ ('p' :: 'x' :: rest)) = some (dx, rest) := by
  unfold pxSegTry
  rw [List.takeWhile_append_of_pos h2, List.takeWhile_cons_of_neg (by decide),
    List.append_nil]
  rw [if_neg h1, List.drop_left]
  rfl

lemma ws_single (ch : Char) (t : Str) (h : isJsSpace ch = false) :
    (' ' :: ch :: t).takeWhile isJsSpace = [' '] := by
  rw [List.takeWhile_cons_of_pos (by decide), List.takeWhile_cons_of_neg (by simp [h])]

/-- Counterexample for C8: the shadow pattern is unanchored, so a string
that is not of the single-shadow shape (here one with a stray leading
token) still produces a shadow descriptor instead of the null sentinel. -/
theorem claim_C8_counterexample :
    parseBoxShadow (chars "a 1px 2px 3px red") = some ⟨⟨1, 0, 0, 1 / 10⟩, 1, 2, 3⟩
    ∧ parseBoxShadow (chars "a 1px 2px 3px red") ≠ none := by
  with_unfolding_all decide

/-- Claim C8, amended: for every string of the single-shadow shape
`"<offsetX>px <offsetY>px <blur>px <color>"` whose color part contains no
line terminator (JS `.` stops the capture at the first one) and is
resolvable, `parseBoxShadow` returns the descriptor with that offset, blur
radius, the parsed color used as-is and alpha fixed at `0.1` — any alpha
channel inside an `rgba(...)` color string is discarded (first conjunct).
However the pattern may also match as an infix of a longer string, so
strings not of the shape need not map to the null sentinel; the null
sentinel is returned when no infix match with three `px` lengths exists or
when the trailing color is unresolvable (remaining conjuncts). -/
theorem claim_C8 :
    (∀ (dx dy db colorStr : Str) (c : RGB),
      dx ≠ [] → (∀ ch ∈ dx, ch.isDigit = true) →
      dy ≠ [] → (∀ ch ∈ dy, ch.isDigit = true) →
      db ≠ [] → (∀ ch ∈ db, ch.isDigit = true) →
      colorStr ≠ [] → isJsSpace (colorStr.headD 'x') = false →
      (∀ ch ∈ colorStr, isLineTerm ch = false) →
      parseColor colorStr = some c →
      parseBoxShadow (dx ++ (chars "px " ++ (dy ++ (chars "px " ++ (db ++ (chars "px " ++ colorStr))))))
        = some ⟨⟨c.r, c.g, c.b, 1 / 10⟩, (digitsToNat dx : ℚ), (digitsToNat dy : ℚ),
            (digitsToNat db : ℚ)⟩)
    ∧ parseBoxShadow (chars "5px 6px") = none
    ∧ parseBoxShadow (chars "0 2px 10px red") = none
    ∧ parseBoxShadow (chars "1px 2px 3px notacolor") = none := by
  refine ⟨?_, ?_, ?_, ?_⟩
  · intro dx dy db colorStr c hx1 hx2 hy1 hy2 hb1 hb2 hc1 hch hlt hcol
    rcases hdx : dx with _ | ⟨d0, dxr⟩
    · exact absurd hdx hx1
    rcases hcolorStr : colorStr with _ | ⟨ch0, cst⟩
    · exact absurd hcolorStr hc1
    rcases hdy : dy with _ | ⟨e0, dyr⟩
    · exact absurd hdy hy1
    rcases hdb : db with _ | ⟨f0, dbr⟩
    · exact absurd hdb hb1
    subst hdx hcolorStr hdy hdb
    have hch0 : isJsSpace ch0 = false := by simpa using hch
    have hpx : chars "px " = 'p' :: 'x' :: ' ' :: [] := rfl
    rw [hpx]
    have hshape : (d0 :: dxr) ++ ('p' :: 'x' :: ' ' :: [] ++ ((e0 :: dyr) ++ ('p' :: 'x' :: ' ' :: [] ++ ((f0 :: dbr) ++ ('p' :: 'x' :: ' ' :: [] ++ (ch0 :: cst))))))
        = (d0 :: dxr) ++ ('p' :: 'x' :: (' ' :: ((e0 :: dyr) ++ ('p' :: 'x' :: (' ' :: ((f0 :: dbr) ++ ('p' :: 'x' :: (' ' :: (ch0 :: cst))))))))) := by
      simp
    rw [hshape]
    have htry : shadowTryAt ((d0 :: dxr) ++ ('p' :: 'x' :: (' ' :: ((e0 :: dyr) ++ ('p' :: 'x' :: (' ' :: ((f0 :: dbr) ++ ('p' :: 'x' :: (' ' :: (ch0 :: cst)))))))))) = some (d0 :: dxr, e0 :: dyr, f0 :: dbr, ch0 :: cst) := by
      unfold shadowTryAt
      rw [pxSegTry_exact _ _ hx1 hx2]
      dsimp only
      have hws1 : (' ' :: ((e0 :: dyr) ++ ('p' :: 'x' :: (' ' :: ((f0 :: dbr) ++ ('p' :: 'x' :: (' ' :: (ch0 :: cst)))))))).takeWhile isJsSpace = [' '] := by
        rw [List.cons_append]
        exact ws_single _ _ (isJsSpace_of_digit e0 (hy2 e0 (by simp)))
      rw [hws1]
      rw [if_neg (by simp : ¬ ([' '] : Str) = [])]
      simp only [List.length_cons, List.length_nil, List.drop_succ_cons, List.drop_zero]
      rw [pxSegTry_exact _ _ hy1 hy2]
      dsimp only
      have hws2 : (' ' :: ((f0 :: dbr) ++ ('p' :: 'x' :: (' ' :: (ch0 :: cst))))).takeWhile isJsSpace = [' '] := by
        rw [List.cons_append]
        exact ws_single _ _ (isJsSpace_of_digit f0 (hb2 f0 (by simp)))
      rw [hws2]
      rw [if_neg (by simp : ¬ ([' '] : Str) = [])]
      simp only [List.length_cons, List.length_nil, List.drop_succ_cons, List.drop_zero]
      rw [pxSegTry_exact _ _ hb1 hb2]
      dsimp only
      have hws3 : (' ' :: (ch0 :: cst)).takeWhile isJsSpace = [' '] :=
        ws_single _ _ hch0
      rw [hws3]
      rw [if_neg (by simp : ¬ ([' '] : Str) = [])]
      simp only [List.length_cons, List.length_nil, List.drop_succ_cons, List.drop_zero]
      rw [if_pos (by simp : (ch0 :: cst) ≠ [])]
      have hlt2 : ∀ a ∈ (ch0 :: cst), (fun ch => !(isLineTerm ch)) a = true := by
        intro a ha
        simp [hlt a ha]
      rw [takeWhile_eq_self_of_all (ch0 :: cst) hlt2]
    have hscan : shadowScan ((d0 :: dxr) ++ ('p' :: 'x' :: (' ' :: ((e0 :: dyr) ++ ('p' :: 'x' :: (' ' :: ((f0 :: dbr) ++ ('p' :: 'x' :: (' ' :: (ch0 :: cst)))))))))) = some (d0 :: dxr, e0 :: dyr, f0 :: dbr, ch0 :: cst) := by
      rw [List.cons_append, shadowScan, ← List.cons_append, htry]
    unfold parseBoxShadow
    rw [hscan]
    dsimp only
    rw [jsParseInt_digits (d0 :: dxr) hx1 hx2, jsParseInt_digits (e0 :: dyr) hy1 hy2,
      jsParseInt_digits (f0 :: dbr) hb1 hb2, hcol]
    simp
  all_goals with_unfolding_all decide

/-- Witness for C8 at `0px 2px 10px rgba(0,0,0,0.9)`: the rgba alpha 0.9 is
discarded in favour of the fixed 0.1. -/
theorem claim_C8_witness :
    parseBoxShadow (chars "0" ++ (chars "px " ++ (chars "2" ++ (chars "px " ++
        (chars "10" ++ (chars "px " ++ chars "rgba(0,0,0,0.9)"))))))
      = some ⟨⟨0, 0, 0, 1 / 10⟩, (digitsToNat (chars "0") : ℚ), (digitsToNat (chars "2") : ℚ),
          (digitsToNat (chars "10") : ℚ)⟩ :=
  claim_C8.1 (chars "0") (chars "2") (chars "10") (chars "rgba(0,0,0,0.9)") ⟨0, 0, 0⟩
    (by with_unfolding_all decide) (by with_unfolding_all decide)
    (by with_unfolding_all decide) (by with_unfolding_all decide)
    (by with_unfolding_all decide) (by with_unfolding_all decide)
    (by with_unfolding_all decide) (by with_unfolding_all decide)
    (by with_unfolding_all decide) (by with_unfolding_all decide)

/-- Claim C2: fail-fast error conditions.  For blank/whitespace-only input
`parseHtml` returns the failure result with the empty-input message and an
empty element list; whenever the scanner finds zero top-level elements,
`parseHtml` returns a failure result with an error message and an empty
element list — no partial tree in either case. -/
theorem claim_C2 : ∀ s : Str,
    (jsTrim s = [] → parseHtml s = ⟨[], false, some (chars "HTML内容为空")⟩)
    ∧ ((parseHtmlString s).isEmpty = true →
        (parseHtml s).success = false ∧ (parseHtml s).elements = []
        ∧ (parseHtml s).error.isSome = true) := by
  intro s
  constructor
  · intro h
    unfold parseHtml
    rw [if_pos (Or.inr h)]
  · intro h
    by_cases hb : s = [] ∨ jsTrim s = []
    · simp [parseHtml, hb]
    · simp [parseHtml, hb, h]

/-- Witness for C2 at whitespace-only input and at `"just text"` (which
parses to zero top-level elements). -/
theorem claim_C2_witness :
    (parseHtml (chars "   ")).success = false
    ∧ (parseHtml (chars "just text")).success = false
    ∧ (parseHtml (chars "just text")).elements = []
    ∧ (parseHtml (chars "just text")).error.isSome = true := by
  refine ⟨?_, ?_, ?_, ?_⟩
  · rw [(claim_C2 (chars "   ")).1 (by with_unfolding_all decide)]
  · exact ((claim_C2 (chars "just text")).2 (by with_unfolding_all decide)).1
  · exact ((claim_C2 (chars "just text")).2 (by with_unfolding_all decide)).2.1
  · exact ((claim_C2 (chars "just text")).2 (by with_unfolding_all decide)).2.2

lemma beginsWith_le_length (ci : Bool) (pat : Str) : ∀ cs : Str,
    beginsWith ci pat cs = true → pat.length ≤ cs.length := by
  induction pat with
  | nil => intro cs _; simp
  | cons p ps ih =>
    intro cs h
    cases cs with
    | nil => simp [beginsWith] at h
    | cons c rest =>
      simp only [beginsWith, Bool.and_eq_true] at h
      have := ih rest h.2
      simp only [List.length_cons]
      omega

lemma takeWhile_length_le {p : Char → Bool} (l : Str) : (l.takeWhile p).length ≤ l.length := by
  induction l with
  | nil => simp
  | cons a t ih =>
    by_cases h : p a
    · rw [List.takeWhile_cons_of_pos h]
      simp only [List.length_cons]
      omega
    · rw [List.takeWhile_cons_of_neg h]
      simp

lemma splitFirstSub_length (ci : Bool) (pat : Str) : ∀ (cs pre suf : Str),
    splitFirstSub ci pat cs = some (pre, suf) →
    pre.length + pat.length + suf.length = cs.length := by
  intro cs
  induction cs with
  | nil =>
    intro pre suf h
    unfold splitFirstSub at h
    split at h
    · rename_i hb
      have := beginsWith_le_length ci pat [] hb
      injection h with h2
      have hpre := congrArg Prod.fst h2.symm
      have hsuf := congrArg Prod.snd h2.symm
      simp at hpre hsuf this
      simp [hpre, hsuf, this]
    · cases h
  | cons c rest ih =>
    intro pre suf h
    unfold splitFirstSub at h
    split at h
    · rename_i hb
      have hle := beginsWith_le_length ci pat (c :: rest) hb
      injection h with h2
      have hpre := congrArg Prod.fst h2.symm
      have hsuf := congrArg Prod.snd h2.symm
      simp only at hpre hsuf
      rw [hpre, hsuf]
      simp only [List.length_nil, List.length_drop, List.length_cons] at hle ⊢
      omega
    · rcases h2 : splitFirstSub ci pat rest with _ | ⟨p2, s2⟩
      · rw [h2] at h; cases h
      · rw [h2] at h
        injection h with h3
        have hpre := congrArg Prod.fst h3.symm
        have hsuf := congrArg Prod.snd h3.symm
        simp only at hpre hsuf
        rw [hpre, hsuf]
        have := ih p2 s2 h2
        simp only [List.length_cons]
        omega

lemma tryOnce_bound (name after : Str) (m : TagMatch) (h : tryOnce name after = some m) :
    m.content.length < after.length ∧ m.rest.length < after.length := by
  unfold tryOnce at h
  dsimp only at h
  split at h
  · cases h
  · rename_i hlen
    have hregle : (after.takeWhile (fun c => !(c == '>'))).length ≤ after.length :=
      takeWhile_length_le after
    have hreglt : (after.takeWhile (fun c => !(c == '>'))).length < after.length :=
      lt_of_le_of_ne hregle hlen
    split at h
    · injection h with h2
      rw [← h2]
      simp only [List.length_nil, List.length_drop]
      omega
    · split at h
      · rename_i content rest hsp
        injection h with h2
        rw [← h2]
        simp only []
        have hl := splitFirstSub_length false ('<' :: '/' :: (name ++ ['>'])) _ content rest hsp
        simp only [List.length_drop, List.length_cons, List.length_append] at hl
        constructor
        · omega
        · omega
      · cases h

lemma tryBT_bound : ∀ (revName after : Str) (m : TagMatch),
    tryBT revName after = some m →
    m.content.length < revName.length + after.length
    ∧ m.rest.length < revName.length + after.length := by
  intro revName
  induction revName with
  | nil => intro after m h; cases h
  | cons c revRest ih =>
    intro after m h
    unfold tryBT at h
    rcases htry : tryOnce ((c :: revRest).reverse) after with _ | m2
    · rw [htry] at h
      have := ih (c :: after) m h
      simp only [List.length_cons] at this ⊢
      omega
    · rw [htry] at h
      injection h with h2
      subst h2
      have := tryOnce_bound _ _ m2 htry
      simp only [List.length_cons]
      omega

lemma findFirstMatch_bound : ∀ (cs : Str) (m : TagMatch),
    findFirstMatch cs = some m →
    m.content.length < cs.length ∧ m.rest.length < cs.length := by
  intro cs
  induction cs with
  | nil => intro m h; cases h
  | cons c rest ih =>
    intro m h
    unfold findFirstMatch at h
    split at h
    · dsimp only at h
      split at h
      · have := ih m h
        simp only [List.length_cons]
        omega
      · rcases htb : tryBT (rest.takeWhile isWordChar).reverse
            (rest.drop (rest.takeWhile isWordChar).length) with _ | m2
        · rw [htb] at h
          have := ih m h
          simp only [List.length_cons]
          omega
        · rw [htb] at h
          injection h with h2
          subst h2
          have hb := tryBT_bound _ _ m2 htb
          have hw : (rest.takeWhile isWordChar).length ≤ rest.length :=
            takeWhile_length_le rest
          simp only [List.length_reverse, List.length_drop] at hb
          simp only [List.length_cons]
          omega
    · have := ih m h
      simp only [List.length_cons]
      omega

lemma parseElementsF_isSome : ∀ (fuel : ℕ) (cs : Str) (css : CssTable),
    cs.length < fuel → (parseElementsF fuel cs css).isSome = true := by
  intro fuel
  induction fuel with
  | zero => intro cs css h; exact absurd h (Nat.not_lt_zero _)
  | succ n ih =>
    intro cs css h
    unfold parseElementsF
    rcases hm : findFirstMatch cs with _ | m
    · simp
    · have hb := findFirstMatch_bound cs m hm
      have hc : m.content.length < n := by omega
      have hr : m.rest.length < n := by omega
      dsimp only
      split
      · exact ih m.rest css hr
      · obtain ⟨a, ha⟩ := Option.isSome_iff_exists.mp (ih m.content css hc)
        obtain ⟨b, hb2⟩ := Option.isSome_iff_exists.mp (ih m.rest css hr)
        rw [ha, hb2]
        simp

lemma parseTopLevel_isSome (cs : Str) (css : CssTable) :
    (parseTopLevel cs css).isSome = true := by
  unfold parseTopLevel
  obtain ⟨els, hels⟩ := Option.isSome_iff_exists.mp
    (parseElementsF_isSome (cs.length + 1) cs css (by omega))
  rw [hels]
  split
  · split
    · simp
    · simp
  · rename_i heq
    cases heq

/-- Claim C9: tag-scanner totality — for every input string, including
malformed HTML, the whole `parseHtmlString` pipeline runs to completion
(the fuel sentinel is never hit, modelling "never throws"); in the worst
case it returns an empty element list, as on the unclosed `<div><span>`. -/
theorem claim_C9 :
    (∀ html : Str, (parseHtmlStringF html).isSome = true)
    ∧ parseHtmlString (chars "<div><span>") = [] := by
  constructor
  · intro html
    unfold parseHtmlStringF
    exact parseTopLevel_isSome _ _
  · exact List.isEmpty_iff.mp (by with_unfolding_all decide)

lemma lookupA_single {α : Type} (sel : Str) (props : α) (k : Str) :
    lookupA [(sel, props)] k = if sel = k then some props else none := rfl

lemma myOr_none_right {α : Type} (a : Option α) : myOr a none = a := by
  cases a <;> rfl

lemma myOr_idem {α : Type} (a : Option α) : myOr a a = a := by
  cases a <;> rfl

lemma assign_D2 (props acc : StyleMap) (hnd : keysNodup props)
    (h : (∀ p, lookupA acc p = none) ∨ (∀ p, lookupA acc p = lookupA props p)) :
    ∀ p, lookupA (assign acc props) p = lookupA props p := by
  intro p
  rw [lookupA_assign _ _ hnd]
  rcases h with h | h
  · rw [h p]
    exact myOr_none_right _
  · rw [h p]
    exact myOr_idem _

lemma classBody_single_shape (sel : Str) (props : StyleMap) (classes : List Str)
    (acc : StyleMap) (c : Str) :
    classBody [(sel, props)] classes acc c = acc
    ∨ classBody [(sel, props)] classes acc c = assign acc props
    ∨ classBody [(sel, props)] classes acc c = assign (assign acc props) props := by
  unfold classBody
  dsimp only
  rcases h1 : lookupA [(sel, props)] ('.' :: jsTrim c) with _ | ps
  · dsimp only
    simp only [List.foldl_cons, List.foldl_nil]
    split
    · split
      · right; left; rfl
      · left; rfl
    · left; rfl
  · have hps : ps = props := by
      rw [lookupA_single] at h1
      split at h1
      · injection h1 with h2
        exact h2.symm
      · cases h1
    subst hps
    dsimp only
    simp only [List.foldl_cons, List.foldl_nil]
    split
    · split
      · right; right; rfl
      · right; left; rfl
    · right; left; rfl

lemma classBody_single_trigger (sel : Str) (props : StyleMap) (classes : List Str)
    (acc : StyleMap) (c : Str)
    (h1 : containsSub ('.' :: c) sel = true) (h2 : sel ≠ '.' :: jsTrim c)
    (h3 : (splitClasses sel).all (fun sc => classes.contains sc) = true) :
    classBody [(sel, props)] classes acc c = assign acc props
    ∨ classBody [(sel, props)] classes acc c = assign (assign acc props) props := by
  unfold classBody
  dsimp only
  rcases hl : lookupA [(sel, props)] ('.' :: jsTrim c) with _ | ps
  · dsimp only
    simp only [List.foldl_cons, List.foldl_nil]
    rw [if_pos ⟨h1, h2⟩, if_pos h3]
    left; rfl
  · have hps : ps = props := by
      rw [lookupA_single] at hl
      split at hl
      · injection hl with h2a
        exact h2a.symm
      · cases hl
    subst hps
    dsimp only
    simp only [List.foldl_cons, List.foldl_nil]
    rw [if_pos ⟨h1, h2⟩, if_pos h3]
    right; rfl

lemma foldl_classBody_Q (sel : Str) (props : StyleMap) (classes l : List Str)
    (acc : StyleMap) (hnd : keysNodup props)
    (h : (∀ p, lookupA acc p = none) ∨ (∀ p, lookupA acc p = lookupA props p)) :
    (∀ p, lookupA (List.foldl (classBody [(sel, props)] classes) acc l) p = none)
    ∨ (∀ p, lookupA (List.foldl (classBody [(sel, props)] classes) acc l) p = lookupA props p) := by
  refine foldl_preserve
    (fun a => (∀ p, lookupA a p = none) ∨ (∀ p, lookupA a p = lookupA props p)) _ ?_ l acc h
  intro a c hQ
  rcases classBody_single_shape sel props classes a c with he | he | he
  · rw [he]; exact hQ
  · rw [he]; exact Or.inr (assign_D2 props a hnd hQ)
  · rw [he]
    exact Or.inr (assign_D2 props _ hnd (Or.inr (assign_D2 props a hnd hQ)))

lemma foldl_classBody_D2 (sel : Str) (props : StyleMap) (classes l : List Str)
    (acc : StyleMap) (hnd : keysNodup props)
    (h : ∀ p, lookupA acc p = lookupA props p) :
    ∀ p, lookupA (List.foldl (classBody [(sel, props)] classes) acc l) p = lookupA props p := by
  refine foldl_preserve (fun a => ∀ p, lookupA a p = lookupA props p) _ ?_ l acc h
  intro a c hD2
  rcases classBody_single_shape sel props classes a c with he | he | he
  · rw [he]; exact hD2
  · rw [he]; exact assign_D2 props a hnd (Or.inr hD2)
  · rw [he]
    exact assign_D2 props _ hnd (Or.inr (assign_D2 props a hnd (Or.inr hD2)))

theorem c6_main :
    ∀ (tag classAttr txt : Str) (ch : List SimpleElement) (sel : Str) (props : StyleMap),
      keysNodup props →
      sel ≠ chars "*" →
      sel ≠ tag →
      sel ≠ tag ++ chars ":hover" →
      containsSub (chars ".") sel = true →
      (classesOf classAttr).any
        (fun c => containsSub ('.' :: c) sel && !(decide (sel = '.' :: jsTrim c))) = true →
      ((splitClasses sel).all (fun sc => (classesOf classAttr).contains sc)) = true →
      ∀ p, lookupA (applyCssStyles ⟨tag, [(chars "class", classAttr)], txt, ch⟩ [(sel, props)] []) p
          = lookupA props p := by
  intro tag classAttr txt ch sel props hnd h1 h2 h3 hdot hany hall p
  have hca : classAttr ≠ [] := by
    intro he
    subst he
    rw [show classesOf [] = [] from rfl] at hany
    cases hany
  unfold applyCssStyles
  rw [assign_nil]
  unfold ruleStyles
  try dsimp only
  have e1 : lookupA [(sel, props)] (chars "*") = none := by
    rw [lookupA_single, if_neg h1]
  have e2 : lookupA [(sel, props)] tag = none := by
    rw [lookupA_single, if_neg h2]
  have e3 : lookupA [(sel, props)] (tag ++ chars ":hover") = none := by
    rw [lookupA_single, if_neg h3]
  rw [e1]
  try dsimp only
  rw [e2]
  try dsimp only
  unfold classStep
  try dsimp only
  have eclass : getTruthy [(chars "class", classAttr)] (chars "class") = some classAttr := by
    rcases classAttr with _ | ⟨a, as⟩
    · exact absurd rfl hca
    · rfl
  rw [eclass]
  try dsimp only
  have e4 : getTruthy [(chars "class", classAttr)] (chars "id") = none := by
    rfl
  rw [e4]
  try dsimp only
  rw [e3]
  try dsimp only
  obtain ⟨cstar, hmem, hcond⟩ := List.any_eq_true.mp hany
  simp only [Bool.and_eq_true, Bool.not_eq_true', decide_eq_false_iff_not] at hcond
  obtain ⟨l1, l2, hsplit⟩ := List.append_of_mem hmem
  rw [hsplit] at hall ⊢
  rw [List.foldl_append, List.foldl_cons]
  have hQbase := foldl_classBody_Q sel props (l1 ++ cstar :: l2) l1 []
    hnd (Or.inl (fun _ => rfl))
  have hD2mid : ∀ p2, lookupA (classBody [(sel, props)] (l1 ++ cstar :: l2)
      (List.foldl (classBody [(sel, props)] (l1 ++ cstar :: l2)) [] l1) cstar) p2
      = lookupA props p2 := by
    rcases classBody_single_trigger sel props (l1 ++ cstar :: l2)
        (List.foldl (classBody [(sel, props)] (l1 ++ cstar :: l2)) [] l1) cstar
        hcond.1 hcond.2 hall with he | he
    · rw [he]
      exact assign_D2 props _ hnd hQbase
    · rw [he]
      exact assign_D2 props _ hnd (Or.inr (assign_D2 props _ hnd hQbase))
  have hfin := foldl_classBody_D2 sel props (l1 ++ cstar :: l2) l2 _ hnd hD2mid
  unfold descendantStep
  simp only [List.foldl_cons, List.foldl_nil]
  try dsimp only
  rw [if_neg ?_]
  · exact hfin p
  · rintro ⟨_, hc, _⟩
    rw [hdot] at hc
    cases hc

/-- C6: compound-class selector matching is order-independent. For every element whose
sole attribute is a class attribute listing its classes in any order, and every rule
table holding one compound selector that contains a dot, is distinct from the universal,
tag, and hover selectors, matches some class of the element as a proper compound
occurrence, and whose dot-separated tokens are all among the element classes,
applyCssStyles yields exactly that rule's properties. In particular the element with
class attribute "c b a" picks up x:1 from the rule .a.b. -/
theorem claim_C6 :
    (∀ (tag classAttr txt : Str) (ch : List SimpleElement) (sel : Str) (props : StyleMap),
      keysNodup props →
      sel ≠ chars "*" →
      sel ≠ tag →
      sel ≠ tag ++ chars ":hover" →
      containsSub (chars ".") sel = true →
      (classesOf classAttr).any
        (fun c => containsSub ('.' :: c) sel && !(decide (sel = '.' :: jsTrim c))) = true →
      ((splitClasses sel).all (fun sc => (classesOf classAttr).contains sc)) = true →
      ∀ p, lookupA (applyCssStyles ⟨tag, [(chars "class", classAttr)], txt, ch⟩ [(sel, props)] []) p
          = lookupA props p)
    ∧ lookupA (applyCssStyles exCompoundElement exCompoundCss []) (chars "x")
        = some (chars "1") :=
  ⟨c6_main, by with_unfolding_all decide⟩

theorem claim_C6_witness :
    lookupA (applyCssStyles ⟨chars "div", [(chars "class", chars "c b a")], [], []⟩
        [(chars ".a.b", [(chars "x", chars "1")])] []) (chars "x")
      = lookupA [(chars "x", chars "1")] (chars "x") :=
  claim_C6.1 (chars "div") (chars "c b a") [] [] (chars ".a.b") [(chars "x", chars "1")]
    (by unfold keysNodup; with_unfolding_all decide) (by with_unfolding_all decide)
    (by with_unfolding_all decide) (by with_unfolding_all decide)
    (by with_unfolding_all decide) (by with_unfolding_all decide)
    (by with_unfolding_all decide) (chars "x")
